import Mathlib

/-! # The YungChing listing parser (`parser/yungching.go`)

A shallow embedding of `ParseYungChing` and its methods, followed by the
properties of the pagination controller and of the field extractor.

Modelling conventions.

* Go `int` is the 64-bit signed integer: values are `Int`, and every arithmetic
  result is reduced into the 64-bit range by `wrap64`.  Division and remainder
  truncate towards zero (`Int.tdiv`, `Int.tmod`) and panic on a zero divisor.
* Go strings are taken to be valid UTF-8, so a string is its sequence of runes
  (`String`, i.e. `List Char`).  On such strings the byte-level functions of
  package `strings` agree with the rune-level definitions below.
* A call that may end in a run-time panic returns a `GoResult`.
* The DOM handle of the browser collaborator is a record of its four query
  functions; a `nil` handle is `none`.  A query answers the same way each time
  it is asked during one extraction.
* The row-count fetch passed to `SetTotalRow` is a state-passing function over
  an arbitrary world `σ`, so that "the fetch was not called" is observable.
* `Link` takes the three functions of `net/url` it calls as a parameter
  (`NetURL`); `goURL` is that library as Go implements it, used wherever the
  text of the resolved URL matters.
-/

namespace SeekHourse

/-! ## Go integers -/

/-- Two to the 63rd: one more than the largest Go `int`. -/
def int64Bound : Int := 9223372036854775808

/-- The value of an integer expression after 64-bit two's-complement wrap-around. -/
def wrap64 (x : Int) : Int := (x + int64Bound) % (2 * int64Bound) - int64Bound

/-- The integers a Go `int` can hold. -/
def isInt64 (x : Int) : Prop := -int64Bound ≤ x ∧ x < int64Bound

instance (x : Int) : Decidable (isInt64 x) := by unfold isInt64; infer_instance

/-- The run-time panics the parser can raise. -/
inductive Panic where
  | divideByZero
  | nilDereference
  | indexOutOfRange
  deriving DecidableEq, Repr

/-- Outcome of a Go call: it returns a value, or it panics. -/
inductive GoResult (α : Type) where
  | ret (a : α)
  | panic (p : Panic)
  deriving DecidableEq, Repr

/-- Sequencing of calls: a panic aborts what follows. -/
def GoResult.bind {α β : Type} : GoResult α → (α → GoResult β) → GoResult β
  | .ret a, k => k a
  | .panic p, _ => .panic p

instance : Monad GoResult where
  pure := GoResult.ret
  bind := GoResult.bind

/-- A Go `error` value: either an error handed over by a collaborator (DOM
engine, row-count fetch, `net/url`), or a value made here by `errors.New`. -/
inductive GoError (ε : Type) where
  | external (e : ε)
  | errorsNew (msg : String)
  deriving DecidableEq, Repr

/-! ## Package `strings`, on rune sequences -/

/-- Go `strings.HasPrefix`. -/
def stringsHasPrefix : List Char → List Char → Bool
  | _, [] => true
  | [], _ :: _ => false
  | c :: s, d :: p => c == d && stringsHasPrefix s p

/-- Go `strings.Replace(s, old, "", 1)`: the first occurrence of `old` in `s`
is cut out; `s` is returned as it is when `old` is empty or does not occur. -/
def removeFirst (old : List Char) : List Char → List Char
  | [] => []
  | c :: s =>
    if stringsHasPrefix (c :: s) old then (c :: s).drop old.length
    else c :: removeFirst old s

/-- Go `strings.Replace(s, old, "", 1)` on strings. -/
def stringsReplaceOnce (s old : String) : String := ⟨removeFirst old.data s.data⟩

/-- Go `unicode.IsSpace`. -/
def unicodeIsSpace (c : Char) : Bool :=
  let n := c.toNat
  (9 ≤ n && n ≤ 13) || n == 0x20 || n == 0x85 || n == 0xA0 || n == 0x1680 ||
  (0x2000 ≤ n && n ≤ 0x200A) || n == 0x2028 || n == 0x2029 || n == 0x202F ||
  n == 0x205F || n == 0x3000

/-- Go `strings.TrimSpace`: leading and trailing white space removed. -/
def stringsTrimSpace (s : String) : String :=
  ⟨((s.data.dropWhile unicodeIsSpace).reverse.dropWhile unicodeIsSpace).reverse⟩

/-- Go `strings.ReplaceAll(s, " ", "")`: every space character removed. -/
def stringsRemoveSpaces (s : String) : String := ⟨s.data.filter (fun c => c != ' ')⟩

/-- Go `strings.Split(s, sep)` for a one-rune separator, on rune sequences. -/
def splitRunes (sep : Char) : List Char → List (List Char)
  | [] => [[]]
  | c :: s =>
    if c = sep then [] :: splitRunes sep s
    else
      match splitRunes sep s with
      | [] => [[c]]
      | seg :: segs => (c :: seg) :: segs

/-- Go `strings.Split(s, sep)` for a one-rune separator. -/
def stringsSplit (s : String) (sep : Char) : List String :=
  (splitRunes sep s.data).map String.mk

/-! ## Selectors -/

/-- The selector descriptor `QuerySelector` (its fields as used by the constructor). -/
structure QuerySelector where
  ClassName : List String
  TagName : String
  NextTagName : List String
  deriving DecidableEq, Repr

/-- Modelled from the spec: `QuerySelector.Build`, whose source file is not
among the sources.  The tag name, then each class token as a `.class` clause
in order, then each subordinate tag name as a blank-separated clause. -/
def QuerySelector.Build (qs : QuerySelector) : String :=
  qs.TagName ++ String.join (qs.ClassName.map (fun c => "." ++ c))
    ++ String.join (qs.NextTagName.map (fun t => " " ++ t))

/-- The anonymous struct field `Selectors` of `ParseYungChing`. -/
structure SelectorSet where
  ListItem : QuerySelector
  Link : QuerySelector
  Detail : QuerySelector
  Total : QuerySelector
  Address : QuerySelector
  Price : QuerySelector
  deriving DecidableEq, Repr

/-! ## Parser state -/

/-- The struct `ParseYungChing`. -/
structure ParseYungChing where
  PageSize : Int
  CurrentPage : Int
  TotalPage : Int
  City : String
  MaxPrice : Int
  MinPrice : Int
  Selectors : SelectorSet
  deriving DecidableEq, Repr

/-- The constructor `NewParseYungChing`. -/
def NewParseYungChing (city : String) : ParseYungChing where
  PageSize := 30
  CurrentPage := 1
  TotalPage := 0
  City := city
  MaxPrice := 3000
  MinPrice := 500
  Selectors :=
    { ListItem := { ClassName := ["m-list-item"], TagName := "li", NextTagName := [] }
      Link := { ClassName := ["item-img", "ga_click_trace"], TagName := "a", NextTagName := [] }
      Total :=
        { ClassName := ["list-filter", "is-first", "active", "ng-isolate-scope"]
          NextTagName := ["span"], TagName := "a" }
      Address := { ClassName := ["item-description"], TagName := "div", NextTagName := ["span"] }
      Detail := { ClassName := ["item-info-detail"], TagName := "ul", NextTagName := [] }
      Price := { ClassName := ["price-num"], TagName := "span", NextTagName := [] } }

namespace ParseYungChing

/-- The method `URL`: `fmt.Sprintf` with `%s` for the city and `%d` for the numbers. -/
def URL (yc : ParseYungChing) : String :=
  "https://buy.yungching.com.tw/region/" ++ yc.City ++ "-_c/" ++ toString yc.MinPrice
    ++ "-" ++ toString yc.MaxPrice ++ "_price/_rm/?pg=" ++ toString yc.CurrentPage

/-- The method `HasNext`. -/
def HasNext (yc : ParseYungChing) : Bool :=
  yc.TotalPage == 0 || decide (yc.TotalPage > yc.CurrentPage)

/-- The method `ItemQuerySelector`. -/
def ItemQuerySelector (yc : ParseYungChing) : String :=
  yc.Selectors.ListItem.Build

/-- The method `UpdateCurrentPage` (pointer receiver): the state after the call. -/
def UpdateCurrentPage (yc : ParseYungChing) : ParseYungChing :=
  { yc with CurrentPage := wrap64 (yc.CurrentPage + 1) }

/-- The page count `SetTotalRow` stores for `rows` rows: `rows/PageSize`, plus
one when `rows%PageSize` is not zero.  The divisor is not zero here. -/
def pageCount (rows pageSize : Int) : Int :=
  let count : Int := if rows.tmod pageSize ≠ 0 then 1 else 0
  wrap64 (wrap64 (rows.tdiv pageSize) + count)

/-- The method `SetTotalRow` (pointer receiver).  `f` is the row-count fetch,
run in world `w`.  The result is the returned error (or a panic), the state
after the call, and the world after the call. -/
def SetTotalRow {κ σ ε : Type} (yc : ParseYungChing) (ctx : κ)
    (f : κ → String → σ → Except ε Int × σ) (w : σ) :
    GoResult (Option (GoError ε)) × ParseYungChing × σ :=
  if yc.TotalPage ≠ 0 then (.ret none, yc, w)
  else
    match f ctx yc.Selectors.Total.Build w with
    | (.error err, w1) => (.ret (some (.external err)), yc, w1)
    | (.ok rows, w1) =>
      if yc.PageSize = 0 then (.panic .divideByZero, yc, w1)
      else (.ret none, { yc with TotalPage := pageCount rows yc.PageSize }, w1)

end ParseYungChing

/-! ## Collaborators of the field extractor -/

/-- The DOM handle `pw.ElementHandle`, as the answers of its four query
methods.  `QuerySelector` answers `none` when no element matches. -/
inductive ElementHandle (ε : Type) where
  | mk (QuerySelector : String → Except ε (Option (ElementHandle ε)))
       (QuerySelectorAll : String → Except ε (List (ElementHandle ε)))
       (GetAttribute : String → Except ε String)
       (TextContent : Except ε String)

namespace ElementHandle

/-- The method `QuerySelector` of a handle. -/
def QuerySelector {ε : Type} : ElementHandle ε → String → Except ε (Option (ElementHandle ε))
  | .mk q _ _ _ => q

/-- The method `QuerySelectorAll` of a handle. -/
def QuerySelectorAll {ε : Type} : ElementHandle ε → String → Except ε (List (ElementHandle ε))
  | .mk _ q _ _ => q

/-- The method `GetAttribute` of a handle. -/
def GetAttribute {ε : Type} : ElementHandle ε → String → Except ε String
  | .mk _ _ g _ => g

/-- The method `TextContent` of a handle. -/
def TextContent {ε : Type} : ElementHandle ε → Except ε String
  | .mk _ _ _ t => t

end ElementHandle

/-- The part of Go package `net/url` that `Link` uses, taken as given. -/
structure NetURL (ε : Type) where
  URL : Type
  Parse : String → Except ε URL
  ResolveReference : URL → URL → URL
  URLString : URL → String

/-- The package-level helper `Price(handle, selector)`, whose source file is
not among the sources: any function returning a number and an error. -/
abbrev PriceFn (ε : Type) : Type := ElementHandle ε → String → Int × Option (GoError ε)

/-- The record `hourse.UpsertHourseRequest`, with the fields the parser writes. -/
structure UpsertHourseRequest where
  City : String
  Section : String
  Address : String
  Link : String
  Price : Int
  Shape : String
  Age : String
  Floor : String
  Mainarea : String
  Area : String
  Layout : String
  Others : List String
  deriving DecidableEq, Repr

/-- The zero value of `hourse.UpsertHourseRequest`. -/
def UpsertHourseRequest.zero : UpsertHourseRequest where
  City := ""
  Section := ""
  Address := ""
  Link := ""
  Price := 0
  Shape := ""
  Age := ""
  Floor := ""
  Mainarea := ""
  Area := ""
  Layout := ""
  Others := []

/-- The administrative-boundary glyphs tested in the loop of `Address`. -/
def isBoundaryGlyph (c : Char) : Bool :=
  c == '鄉' || c == '鎮' || c == '市' || c == '區'

/-- The loop of `Address`: runes are written to the builder up to and
including the first boundary glyph. -/
def sectionScan : List Char → List Char
  | [] => []
  | c :: s => if isBoundaryGlyph c then [c] else c :: sectionScan s

namespace ParseYungChing

/-- The method `Link`. -/
def Link {ε : Type} (yc : ParseYungChing) (lib : NetURL ε) (handle : ElementHandle ε) :
    String × Option (GoError ε) :=
  match handle.QuerySelector yc.Selectors.Link.Build with
  | .error err => ("", some (.external err))
  | .ok none => ("", none)
  | .ok (some element) =>
    match element.GetAttribute "href" with
    | .error err => ("", some (.external err))
    | .ok link =>
      if stringsHasPrefix link.data "https".data then ("", some (.errorsNew ""))
      else
        match lib.Parse link with
        | .error err => ("", some (.external err))
        | .ok path =>
          match lib.Parse "https://buy.yungching.com.tw" with
          | .error err => ("", some (.external err))
          | .ok host => (lib.URLString (lib.ResolveReference host path), none)

/-- The method `Price`. -/
def Price {ε : Type} (yc : ParseYungChing) (price : PriceFn ε) (handle : ElementHandle ε) :
    Int × Option (GoError ε) :=
  price handle yc.Selectors.Price.Build

/-- The method `Address`: the returned error and the record `in` after the call. -/
def Address {ε : Type} (yc : ParseYungChing) (item : ElementHandle ε)
    (req : UpsertHourseRequest) : Option (GoError ε) × UpsertHourseRequest :=
  match item.QuerySelector yc.Selectors.Address.Build with
  | .error _ => (some (.errorsNew ""), req)
  | .ok none => (some (.errorsNew ""), req)
  | .ok (some element) =>
    match element.TextContent with
    | .error err => (some (.external err), req)
    | .ok text =>
      let address := stringsReplaceOnce text yc.City
      let sec : String := ⟨sectionScan address.data⟩
      (none, { req with Section := sec, Address := stringsReplaceOnce address sec })

/-- The closure `UpdateField` of `FetchItem`: the new value of the field and
the returned error.  Indexing `detail[idx]` panics when out of range. -/
def UpdateField {ε : Type} (detail : List (ElementHandle ε)) (idx : Nat) (field : String) :
    GoResult (String × Option (GoError ε)) :=
  match detail.get? idx with
  | none => .panic .indexOutOfRange
  | some el =>
    match el.TextContent with
    | .error err => .ret (field, some (.external err))
    | .ok text => .ret (stringsRemoveSpaces (stringsTrimSpace text), none)

/-- One round of the notes loop of `FetchItem`, for position `num`. -/
def appendNote {ε : Type} (detail : List (ElementHandle ε)) (others : List String) (num : Nat) :
    GoResult (List String) :=
  match detail.get? num with
  | none => .panic .indexOutOfRange
  | some el =>
    match el.TextContent with
    | .error _ => .ret others
    | .ok text =>
      if stringsTrimSpace text = "" then .ret others
      else .ret (others ++ [stringsTrimSpace text])

/-- The last statements of `FetchItem`: `floor[len(floor)-1]` of the split. -/
def lastFloor (floor : String) : GoResult String :=
  match (stringsSplit floor '~').getLast? with
  | none => .panic .indexOutOfRange
  | some seg => .ret seg

/-- The part of `FetchItem` after the child count has been checked. -/
def fillDetail {ε : Type} (detail : List (ElementHandle ε)) (result : UpsertHourseRequest) :
    GoResult (UpsertHourseRequest × Option (GoError ε)) := do
  let shape ← UpdateField detail 0 result.Shape
  let age ← UpdateField detail 1 result.Age
  let floor ← UpdateField detail 2 result.Floor
  let mainarea ← UpdateField detail 4 result.Mainarea
  let area ← UpdateField detail 5 result.Area
  let layout ← UpdateField detail 6 result.Layout
  let others ← [3, 7, 8].foldlM (appendNote detail) result.Others
  let last ← lastFloor floor.1
  return ({ result with
              Shape := shape.1, Age := age.1, Floor := last, Mainarea := mainarea.1,
              Area := area.1, Layout := layout.1, Others := others }, none)

/-- The method `FetchItem`: the returned record and error, or a panic. -/
def FetchItem {ε : Type} (yc : ParseYungChing) (lib : NetURL ε) (price : PriceFn ε)
    (item : Option (ElementHandle ε)) : GoResult (UpsertHourseRequest × Option (GoError ε)) :=
  match item with
  | none => .ret (UpsertHourseRequest.zero, none)
  | some item =>
    let result := { UpsertHourseRequest.zero with City := yc.City }
    match yc.Link lib item with
    | (link, some err) => .ret ({ result with Link := link }, some err)
    | (link, none) =>
      let result := { result with Link := link }
      match yc.Price price item with
      | (p, some err) => .ret ({ result with Price := p }, some err)
      | (p, none) =>
        let result := { result with Price := p }
        match yc.Address item result with
        | (some err, result) => .ret (result, some err)
        | (none, result) =>
          match item.QuerySelector yc.Selectors.Detail.Build with
          | .error err => .ret (result, some (.external err))
          | .ok none => .panic .nilDereference
          | .ok (some detailElement) =>
            match detailElement.QuerySelectorAll "li" with
            | .error err => .ret (result, some (.external err))
            | .ok detail =>
              if detail.length ≠ 9 then .ret (result, some (.errorsNew ""))
              else fillDetail detail result

end ParseYungChing

/-! ## The parser as a state machine -/

/-- The calls a client can make on a parser. -/
inductive Op (κ σ ε : Type) where
  | URL
  | HasNext
  | ItemQuerySelector
  | UpdateCurrentPage
  | SetTotalRow (ctx : κ) (f : κ → String → σ → Except ε Int × σ)
  | Link (lib : NetURL ε) (handle : ElementHandle ε)
  | Price (price : PriceFn ε) (handle : ElementHandle ε)
  | Address (item : ElementHandle ε) (req : UpsertHourseRequest)
  | FetchItem (lib : NetURL ε) (price : PriceFn ε) (item : Option (ElementHandle ε))

/-- The parser state and the world after a call.  Methods with a value
receiver work on a copy of the parser, so the caller's state stays as it was;
only `UpdateCurrentPage` and `SetTotalRow` have a pointer receiver. -/
def Op.exec {κ σ ε : Type} (op : Op κ σ ε) (yc : ParseYungChing) (w : σ) : ParseYungChing × σ :=
  match op with
  | .UpdateCurrentPage => (yc.UpdateCurrentPage, w)
  | .SetTotalRow ctx f => (yc.SetTotalRow ctx f w).2
  | _ => (yc, w)

/-! ## Reading the detail list -/

/-- The value the closure `UpdateField` leaves in a field for the child `el`:
the text, trimmed and with its spaces removed, or the old value of the field
when the text cannot be read. -/
def fieldAfter {ε : Type} (el : ElementHandle ε) (old : String) : String :=
  match el.TextContent with
  | .ok text => stringsRemoveSpaces (stringsTrimSpace text)
  | .error _ => old

/-- The note the notes loop of `FetchItem` appends for the child `el`, if any. -/
def noteOf {ε : Type} (el : ElementHandle ε) : Option String :=
  match el.TextContent with
  | .ok text => if stringsTrimSpace text = "" then none else some (stringsTrimSpace text)
  | .error _ => none

/-- The last element of `strings.Split(floor, "~")`. -/
def lastSegment (floor : String) : String :=
  ((stringsSplit floor '~').getLast?).getD ""

/-! ## The normalisation of a detail field, in the words of the spec -/

/-- The white-space runes: the code points with the Unicode property
`White_Space` (tab, line feed, vertical tab, form feed, carriage return,
space, next line, no-break space, and the space separators from U+1680 to
U+3000). -/
def whiteSpaceRunes : List Char :=
  [Char.ofNat 0x09, Char.ofNat 0x0A, Char.ofNat 0x0B, Char.ofNat 0x0C, Char.ofNat 0x0D,
   Char.ofNat 0x20, Char.ofNat 0x85, Char.ofNat 0xA0, Char.ofNat 0x1680,
   Char.ofNat 0x2000, Char.ofNat 0x2001, Char.ofNat 0x2002, Char.ofNat 0x2003,
   Char.ofNat 0x2004, Char.ofNat 0x2005, Char.ofNat 0x2006, Char.ofNat 0x2007,
   Char.ofNat 0x2008, Char.ofNat 0x2009, Char.ofNat 0x200A, Char.ofNat 0x2028,
   Char.ofNat 0x2029, Char.ofNat 0x202F, Char.ofNat 0x205F, Char.ofNat 0x3000]

/-- What "`core` is `text` with its surrounding white space trimmed" means:
`text` is `core` between two runs of white space, and `core` neither begins
nor ends with a white-space rune. -/
def IsTrimmed (text core : List Char) : Prop :=
  ∃ pre post, text = pre ++ core ++ post
    ∧ (∀ c ∈ pre, c ∈ whiteSpaceRunes) ∧ (∀ c ∈ post, c ∈ whiteSpaceRunes)
    ∧ (∀ c, core.head? = some c → c ∉ whiteSpaceRunes)
    ∧ (∀ c, core.getLast? = some c → c ∉ whiteSpaceRunes)

/-- What "`field` is `text`, trimmed and with every space character removed"
means: `field` is the trimmed text without its runes U+0020, the others kept
in order. -/
def IsNormalisedField (text field : String) : Prop :=
  ∃ core, IsTrimmed text.data core ∧ field.data = core.filter (fun c => decide (c ≠ Char.ofNat 0x20))

/-- What "`seg` is the last segment of `text` split on the tilde" means: `seg`
has no tilde and is the part of `text` after its last tilde, or the whole of
`text` when it has none. -/
def IsLastSegment (text seg : String) : Prop :=
  '~' ∉ seg.data
    ∧ ∃ before, text.data = before ++ seg.data ∧ (before = [] ∨ before.getLast? = some '~')

/-! ## The crawl loop -/

/-- The loop `for yc.HasNext() { yc.UpdateCurrentPage() }` of a client, run
for at most `fuel` rounds: the final state and the number of advances made,
or `none` when the loop is still running after `fuel` rounds. -/
def crawlLoop : Nat → ParseYungChing → Option (ParseYungChing × Nat)
  | 0, _ => none
  | fuel + 1, yc =>
    if yc.HasNext then
      match crawlLoop fuel yc.UpdateCurrentPage with
      | some (final, advances) => some (final, advances + 1)
      | none => none
    else some (yc, 0)

/-! ## Package `net/url`

The functions of Go's `net/url` (as of Go 1.19 to 1.21) that `Link` runs:
`Parse`, `ResolveReference` and `String`.  Raw texts are rune sequences;
percent-decoded texts (`Path`, `Host`, `Fragment`, user name and password) are
byte sequences, since decoding can produce bytes that are not UTF-8.  Of an
error only its message is kept. -/

namespace url

/-- A byte string. -/
abbrev Bytes : Type := List Nat

/-- The UTF-8 encoding of a rune. -/
def utf8Bytes (c : Char) : Bytes :=
  let n := c.toNat
  if n < 0x80 then [n]
  else if n < 0x800 then [0xC0 + n / 64, 0x80 + n % 64]
  else if n < 0x10000 then [0xE0 + n / 4096, 0x80 + n / 64 % 64, 0x80 + n % 64]
  else [0xF0 + n / 262144, 0x80 + n / 4096 % 64, 0x80 + n / 64 % 64, 0x80 + n % 64]

/-- The bytes of a text. -/
def bytesOf (s : List Char) : Bytes := s.flatMap utf8Bytes

/-- Go `strings.Cut(s, sep)` for a one-rune separator: the text before the
first `sep` and the text after it (empty when `sep` does not occur). -/
def cut (sep : Char) : List Char → List Char × List Char
  | [] => ([], [])
  | c :: s => if c = sep then ([], s) else ((cut sep s).1.cons c, (cut sep s).2)

/-- Go `strings.LastIndex(s, sep)` for a one-rune separator. -/
def lastIndex (sep : Char) (s : List Char) : Option Nat :=
  match s.reverse.indexOf? sep with
  | some i => some (s.length - 1 - i)
  | none => none

/-- Go `strings.Index(s, sub)`. -/
def index (sub : List Char) : List Char → Option Nat
  | [] => if sub = [] then some 0 else none
  | c :: s =>
    if stringsHasPrefix (c :: s) sub then some 0
    else (index sub s).map (fun i => i + 1)

/-- The escaping modes of `net/url`. -/
inductive Encoding where
  | encodePath
  | encodePathSegment
  | encodeHost
  | encodeZone
  | encodeUserPassword
  | encodeQueryComponent
  | encodeFragment
  deriving DecidableEq, Repr

/-- Go `ishex`. -/
def ishex (c : Char) : Bool :=
  ('0' ≤ c && c ≤ '9') || ('a' ≤ c && c ≤ 'f') || ('A' ≤ c && c ≤ 'F')

/-- Go `unhex`. -/
def unhex (c : Char) : Nat :=
  if '0' ≤ c ∧ c ≤ '9' then c.toNat - 48
  else if 'a' ≤ c ∧ c ≤ 'f' then c.toNat - 97 + 10
  else if 'A' ≤ c ∧ c ≤ 'F' then c.toNat - 65 + 10
  else 0

/-- The digit `"0123456789ABCDEF"[n]`. -/
def upperhex (n : Nat) : Char :=
  if n < 10 then Char.ofNat (48 + n) else Char.ofNat (55 + n)

/-- Letters and digits, as bytes. -/
def isAlnum (b : Nat) : Bool :=
  (97 ≤ b && b ≤ 122) || (65 ≤ b && b ≤ 90) || (48 ≤ b && b ≤ 57)

/-- Go `shouldEscape`: whether byte `b` is escaped in mode `mode`.  The bytes
are given by their codes: 33 `!`, 34 `"`, 36 `$`, 38 `&`, 39 apostrophe,
40 `(`, 41 `)`, 42 `*`, 43 `+`, 44 `,`, 45 `-`, 46 `.`, 47 `/`, 58 `:`,
59 `;`, 60 `<`, 61 `=`, 62 `>`, 63 `?`, 64 `@`, 91 `[`, 93 `]`, 95 `_`,
126 `~`. -/
def shouldEscape (b : Nat) (mode : Encoding) : Bool :=
  if isAlnum b then false
  else if (mode = .encodeHost ∨ mode = .encodeZone)
      ∧ b ∈ [33, 36, 38, 39, 40, 41, 42, 43, 44, 59, 61, 58, 91, 93, 60, 62, 34] then false
  else if b ∈ [45, 95, 46, 126] then false
  else if b ∈ [36, 38, 43, 44, 47, 58, 59, 61, 63, 64] then
    match mode with
    | .encodePath => b == 63
    | .encodePathSegment => b == 47 || b == 59 || b == 44 || b == 63
    | .encodeUserPassword => b == 64 || b == 47 || b == 63 || b == 58
    | .encodeQueryComponent => true
    | .encodeFragment => false
    | _ => true
  else if mode = .encodeFragment ∧ b ∈ [33, 40, 41, 42] then false
  else true

/-- Go `escape`. -/
def escape (mode : Encoding) : Bytes → List Char
  | [] => []
  | b :: s =>
    if shouldEscape b mode then
      if b = 32 ∧ mode = .encodeQueryComponent then '+' :: escape mode s
      else '%' :: upperhex (b / 16) :: upperhex (b % 16) :: escape mode s
    else Char.ofNat b :: escape mode s

/-- Go `unescape`: the percent-decoded bytes of `s`, or the error of the
first ill-formed escape or, in a host, of the first byte a host cannot hold. -/
def unescape (mode : Encoding) : List Char → Except String Bytes
  | [] => .ok []
  | '%' :: h1 :: h2 :: s =>
    if !(ishex h1 && ishex h2) then .error "invalid URL escape"
    else if mode = .encodeHost ∧ unhex h1 < 8 ∧ [h1, h2] ≠ ['2', '5'] then
      .error "invalid URL escape"
    else if mode = .encodeZone ∧ [h1, h2] ≠ ['2', '5'] ∧ unhex h1 * 16 + unhex h2 ≠ 32
        ∧ shouldEscape (unhex h1 * 16 + unhex h2) .encodeHost then
      .error "invalid URL escape"
    else
      match unescape mode s with
      | .error e => .error e
      | .ok t => .ok ((unhex h1 * 16 + unhex h2) :: t)
  | c :: s =>
    if c = '%' then .error "invalid URL escape"
    else if (mode = .encodeHost ∨ mode = .encodeZone) ∧ c.toNat < 0x80
        ∧ shouldEscape c.toNat .encodeHost then
      .error "invalid character in host name"
    else
      match unescape mode s with
      | .error e => .error e
      | .ok t =>
        .ok ((if c = '+' ∧ mode = .encodeQueryComponent then [32] else utf8Bytes c) ++ t)

/-- Go `validEncoded`. -/
def validEncoded (mode : Encoding) (s : List Char) : Bool :=
  s.all (fun c =>
    c.toNat ∈ [33, 36, 38, 39, 40, 41, 42, 43, 44, 59, 61, 58, 64, 91, 93, 37]
      || (c.toNat < 0x80 && !shouldEscape c.toNat mode))

/-- Go `stringContainsCTLByte`. -/
def stringContainsCTLByte (s : List Char) : Bool :=
  s.any (fun c => c.toNat < 0x20 || c.toNat == 0x7f)

/-- The loop of Go `getScheme`, at position `i` of the text. -/
def getSchemeFrom (rawURL : List Char) : Nat → List Char → Except String (List Char × List Char)
  | _, [] => .ok ([], rawURL)
  | i, c :: s =>
    if ('a' ≤ c ∧ c ≤ 'z') ∨ ('A' ≤ c ∧ c ≤ 'Z') then getSchemeFrom rawURL (i + 1) s
    else if ('0' ≤ c ∧ c ≤ '9') ∨ c = '+' ∨ c = '-' ∨ c = '.' then
      if i = 0 then .ok ([], rawURL) else getSchemeFrom rawURL (i + 1) s
    else if c = ':' then
      if i = 0 then .error "missing protocol scheme" else .ok (rawURL.take i, s)
    else .ok ([], rawURL)

/-- Go `getScheme`: the scheme of `rawURL` (empty when it has none) and the
rest of the text. -/
def getScheme (rawURL : List Char) : Except String (List Char × List Char) :=
  getSchemeFrom rawURL 0 rawURL

/-- Go `Userinfo`. -/
structure Userinfo where
  username : Bytes
  password : Bytes
  passwordSet : Bool
  deriving DecidableEq, Repr

/-- Go `URL`. -/
structure URL where
  Scheme : List Char
  Opaque : List Char
  User : Option Userinfo
  Host : Bytes
  Path : Bytes
  RawPath : List Char
  OmitHost : Bool
  ForceQuery : Bool
  RawQuery : List Char
  Fragment : Bytes
  RawFragment : List Char
  deriving DecidableEq, Repr

/-- The zero value of `URL`. -/
def URL.zero : URL where
  Scheme := []
  Opaque := []
  User := none
  Host := []
  Path := []
  RawPath := []
  OmitHost := false
  ForceQuery := false
  RawQuery := []
  Fragment := []
  RawFragment := []

/-- Go `(*URL).setPath`. -/
def URL.setPath (u : URL) (p : List Char) : Except String URL :=
  match unescape .encodePath p with
  | .error e => .error e
  | .ok path =>
    .ok { u with Path := path, RawPath := if p = escape .encodePath path then [] else p }

/-- Go `(*URL).setFragment`. -/
def URL.setFragment (u : URL) (f : List Char) : Except String URL :=
  match unescape .encodeFragment f with
  | .error e => .error e
  | .ok frag =>
    .ok { u with
            Fragment := frag
            RawFragment := if f = escape .encodeFragment frag then [] else f }

/-- Go `(*URL).EscapedPath`. -/
def URL.EscapedPath (u : URL) : List Char :=
  let rawIsValid : Bool :=
    match unescape .encodePath u.RawPath with
    | .ok p => decide (u.RawPath ≠ []) && validEncoded .encodePath u.RawPath && decide (p = u.Path)
    | .error _ => false
  if rawIsValid then u.RawPath
  else if u.Path = [42] then ['*']
  else escape .encodePath u.Path

/-- Go `(*URL).EscapedFragment`. -/
def URL.EscapedFragment (u : URL) : List Char :=
  let rawIsValid : Bool :=
    match unescape .encodeFragment u.RawFragment with
    | .ok f =>
      decide (u.RawFragment ≠ []) && validEncoded .encodeFragment u.RawFragment
        && decide (f = u.Fragment)
    | .error _ => false
  if rawIsValid then u.RawFragment
  else escape .encodeFragment u.Fragment

/-- Go `validOptionalPort`. -/
def validOptionalPort : List Char → Bool
  | [] => true
  | c :: s => c == ':' && s.all (fun b => '0' ≤ b && b ≤ '9')

/-- Go `validUserinfo`. -/
def validUserinfo (s : List Char) : Bool :=
  s.all (fun r =>
    ('A' ≤ r && r ≤ 'Z') || ('a' ≤ r && r ≤ 'z') || ('0' ≤ r && r ≤ '9')
      || r.toNat ∈ [45, 46, 95, 58, 126, 33, 36, 38, 39, 40, 41, 42, 43, 44, 59, 61, 37, 64])

/-- Go `parseHost`. -/
def parseHost (host : List Char) : Except String Bytes :=
  if stringsHasPrefix host ['['] then
    match lastIndex ']' host with
    | none => .error "missing ']' in host"
    | some i =>
      if !validOptionalPort (host.drop (i + 1)) then .error "invalid port after host"
      else
        match index ['%', '2', '5'] (host.take i) with
        | some zone =>
          match unescape .encodeHost (host.take zone) with
          | .error e => .error e
          | .ok host1 =>
            match unescape .encodeZone ((host.take i).drop zone) with
            | .error e => .error e
            | .ok host2 =>
              match unescape .encodeHost (host.drop i) with
              | .error e => .error e
              | .ok host3 => .ok (host1 ++ host2 ++ host3)
        | none => unescape .encodeHost host
  else
    match lastIndex ':' host with
    | some i =>
      if !validOptionalPort (host.drop i) then .error "invalid port after host"
      else unescape .encodeHost host
    | none => unescape .encodeHost host

/-- Go `parseAuthority`. -/
def parseAuthority (authority : List Char) : Except String (Option Userinfo × Bytes) :=
  match lastIndex '@' authority with
  | none =>
    match parseHost authority with
    | .error e => .error e
    | .ok host => .ok (none, host)
  | some i =>
    match parseHost (authority.drop (i + 1)) with
    | .error e => .error e
    | .ok host =>
      if !validUserinfo (authority.take i) then .error "net/url: invalid userinfo"
      else if ':' ∉ authority.take i then
        match unescape .encodeUserPassword (authority.take i) with
        | .error e => .error e
        | .ok name => .ok (some { username := name, password := [], passwordSet := false }, host)
      else
        match unescape .encodeUserPassword (cut ':' (authority.take i)).1 with
        | .error e => .error e
        | .ok name =>
          match unescape .encodeUserPassword (cut ':' (authority.take i)).2 with
          | .error e => .error e
          | .ok pass =>
            .ok (some { username := name, password := pass, passwordSet := true }, host)

/-- Go `strings.ToLower` on the letters of a scheme. -/
def asciiLower (c : Char) : Char :=
  if 'A' ≤ c ∧ c ≤ 'Z' then Char.ofNat (c.toNat + 32) else c

/-- Go `parse(rawURL, false)`: a text without fragment to a `URL`. -/
def parse (rawURL : List Char) : Except String URL :=
  if stringContainsCTLByte rawURL then .error "net/url: invalid control character in URL"
  else if rawURL = ['*'] then .ok { URL.zero with Path := [42] }
  else
    match getScheme rawURL with
    | .error e => .error e
    | .ok (scheme0, rest0) =>
      let scheme := scheme0.map asciiLower
      let force := rest0.getLast? = some '?' ∧ rest0.count '?' = 1
      let rest := if force then rest0.dropLast else (cut '?' rest0).1
      let query := if force then [] else (cut '?' rest0).2
      let u : URL := { URL.zero with Scheme := scheme, ForceQuery := force, RawQuery := query }
      if !stringsHasPrefix rest ['/'] ∧ scheme ≠ [] then .ok { u with Opaque := rest }
      else if !stringsHasPrefix rest ['/'] ∧ ':' ∈ (cut '/' rest).1 then
        .error "first path segment in URL cannot contain colon"
      else if (scheme ≠ [] ∨ !stringsHasPrefix rest ['/', '/', '/'])
          ∧ stringsHasPrefix rest ['/', '/'] then
        let authority := (cut '/' (rest.drop 2)).1
        let path := (rest.drop 2).drop authority.length
        match parseAuthority authority with
        | .error e => .error e
        | .ok (user, host) => { u with User := user, Host := host }.setPath path
      else if scheme ≠ [] ∧ stringsHasPrefix rest ['/'] then
        { u with OmitHost := true }.setPath rest
      else u.setPath rest

/-- Go `Parse`. -/
def Parse (rawURL : List Char) : Except String URL :=
  match parse (cut '#' rawURL).1 with
  | .error e => .error e
  | .ok u => if (cut '#' rawURL).2 = [] then .ok u else u.setFragment (cut '#' rawURL).2

/-- One round of the loop of Go `resolvePath` for the element `elem`: `dst` is
the text written so far without its leading `/`, `first` the flag of the loop. -/
def resolveStep (acc : List Char × Bool) (elem : List Char) : List Char × Bool :=
  if elem = ['.'] then (acc.1, false)
  else if elem = ['.', '.'] then
    match lastIndex '/' acc.1 with
    | none => ([], true)
    | some i => (acc.1.take i, acc.2)
  else ((if acc.2 then acc.1 else acc.1 ++ ['/']) ++ elem, false)

/-- Go `resolvePath`. -/
def resolvePath (base ref : List Char) : List Char :=
  let full :=
    match ref with
    | [] => base
    | c :: _ =>
      if c ≠ '/' then
        (match lastIndex '/' base with
          | some i => base.take (i + 1)
          | none => []) ++ ref
      else ref
  if full = [] then []
  else
    let elems := splitRunes '/' full
    let dst := (elems.foldl resolveStep ([], true)).1
    let dst := if elems.getLast? = some ['.'] ∨ elems.getLast? = some ['.', '.'] then dst ++ ['/']
      else dst
    if dst.head? = some '/' then dst else '/' :: dst

/-- Go `(*URL).ResolveReference`; an error of `setPath` is ignored there. -/
def URL.ResolveReference (u ref : URL) : URL :=
  let r : URL := if ref.Scheme = [] then { ref with Scheme := u.Scheme } else ref
  if ref.Scheme ≠ [] ∨ ref.Host ≠ [] ∨ ref.User ≠ none then
    match r.setPath (resolvePath ref.EscapedPath []) with
    | .ok v => v
    | .error _ => r
  else if ref.Opaque ≠ [] then { r with User := none, Host := [], Path := [] }
  else
    let r : URL :=
      if ref.Path = [] ∧ ref.ForceQuery = false ∧ ref.RawQuery = [] then
        if ref.Fragment = [] then
          { r with RawQuery := u.RawQuery, Fragment := u.Fragment, RawFragment := u.RawFragment }
        else { r with RawQuery := u.RawQuery }
      else r
    let r : URL := { r with Host := u.Host, User := u.User }
    match r.setPath (resolvePath u.EscapedPath ref.EscapedPath) with
    | .ok v => v
    | .error _ => r

/-- Go `(*Userinfo).String`. -/
def Userinfo.String (ui : Userinfo) : List Char :=
  escape .encodeUserPassword ui.username
    ++ (if ui.passwordSet then ':' :: escape .encodeUserPassword ui.password else [])

/-- Go `(*URL).String`. -/
def URL.String (u : URL) : List Char :=
  let buf := if u.Scheme ≠ [] then u.Scheme ++ [':'] else []
  let buf :=
    if u.Opaque ≠ [] then buf ++ u.Opaque
    else
      let buf :=
        if u.Scheme ≠ [] ∨ u.Host ≠ [] ∨ u.User ≠ none then
          if u.OmitHost = true ∧ u.Host = [] ∧ u.User = none then buf
          else
            buf ++ (if u.Host ≠ [] ∨ u.Path ≠ [] ∨ u.User ≠ none then ['/', '/'] else [])
              ++ (match u.User with
                  | some ui => ui.String ++ ['@']
                  | none => [])
              ++ (if u.Host ≠ [] then escape .encodeHost u.Host else [])
        else buf
      let buf :=
        if u.EscapedPath ≠ [] ∧ u.EscapedPath.head? ≠ some '/' ∧ u.Host ≠ [] then buf ++ ['/']
        else buf
      let buf := if buf = [] ∧ ':' ∈ (cut '/' u.EscapedPath).1 then ['.', '/'] else buf
      buf ++ u.EscapedPath
  let buf := if u.ForceQuery = true ∨ u.RawQuery ≠ [] then buf ++ '?' :: u.RawQuery else buf
  if u.Fragment ≠ [] then buf ++ '#' :: u.EscapedFragment else buf

end url

/-- Go's `net/url` as the library `Link` is run with; `mkErr` makes the error
value out of a message. -/
def goURL {ε : Type} (mkErr : String → ε) : NetURL ε where
  URL := url.URL
  Parse := fun s =>
    match url.Parse s.data with
    | .ok u => .ok u
    | .error e => .error (mkErr e)
  ResolveReference := fun host path => url.URL.ResolveReference host path
  URLString := fun u => ⟨url.URL.String u⟩

/-! ## Sample collaborators -/

/-- A row-count fetch that answers `rows` and counts its calls in the world. -/
def countingFetch (rows : Int) : Unit → String → Nat → Except String Int × Nat :=
  fun _ _ calls => (.ok rows, calls + 1)

/-- A row-count fetch that fails with `err` and counts its calls in the world. -/
def failingFetch (err : String) : Unit → String → Nat → Except String Int × Nat :=
  fun _ _ calls => (.error err, calls + 1)

/-- A DOM element without children, with the given text and `href`. -/
def leafElement (text href : String) : ElementHandle String :=
  .mk (fun _ => .ok none) (fun _ => .ok []) (fun _ => .ok href) (.ok text)

/-- A detail list whose `li` children have the given texts. -/
def detailList (texts : List String) : ElementHandle String :=
  .mk (fun _ => .ok none)
    (fun sel => if sel = "li" then .ok (texts.map (fun t => leafElement t "")) else .ok [])
    (fun _ => .ok "") (.ok "")

/-- A listing item as parser `yc` sees it: an anchor with the given `href`,
an address element with the given text, a detail list with the given child
texts; `none` stands for an element that is absent from the item. -/
def sampleItem (yc : ParseYungChing) (href address : Option String)
    (detail : Option (List String)) : ElementHandle String :=
  .mk (fun sel =>
      if sel = yc.Selectors.Link.Build then .ok (href.map (fun h => leafElement "" h))
      else if sel = yc.Selectors.Address.Build then .ok (address.map (fun t => leafElement t ""))
      else if sel = yc.Selectors.Detail.Build then .ok (detail.map detailList)
      else .ok none)
    (fun _ => .ok []) (fun _ => .ok "") (.ok "")

/-- A price helper that always answers 1280 without error. -/
def samplePrice : PriceFn String := fun _ _ => (1280, none)

/-- A stand-in for `net/url` in the examples: it is only right for a base
without path and a reference that is an absolute path. -/
def sampleURL : NetURL String where
  URL := String
  Parse := fun s => .ok s
  ResolveReference := fun host path => host ++ path
  URLString := fun u => u

/-- A DOM handle on which every query fails with `err`. -/
def brokenElement (err : String) : ElementHandle String :=
  .mk (fun _ => .error err) (fun _ => .error err) (fun _ => .error err) (.error err)

/-- A listing item of parser `yc` without anchor, with the given address text,
and whose detail list has nine children none of which has a readable text. -/
def unreadableDetailItem (yc : ParseYungChing) (address err : String) : ElementHandle String :=
  .mk (fun sel =>
      if sel = yc.Selectors.Link.Build then .ok none
      else if sel = yc.Selectors.Address.Build then .ok (some (leafElement address ""))
      else if sel = yc.Selectors.Detail.Build then
        .ok (some (.mk (fun _ => .ok none)
          (fun _ => .ok (List.replicate 9 (brokenElement err))) (fun _ => .ok "") (.ok "")))
      else .ok none)
    (fun _ => .ok []) (fun _ => .ok "") (.ok "")

/-- The origin `Link` resolves every `href` against. -/
def siteOrigin : String := "https://buy.yungching.com.tw"

/-- An `href` that is an absolute path: it begins with one `/` (not two);
every rune is one a URL path may hold, that is an ASCII letter or digit, one of
the marks `- _ . ~ ! $ & ( ) * + , ; = : @ / [ ]`, the apostrophe, or `%`;
every `%` starts a well-formed escape `%XX`; and no segment is `.` or `..`.
Such a text has no scheme, query or fragment. -/
def isAbsolutePathHref (href : List Char) : Prop :=
  href.head? = some '/' ∧ (href.drop 1).head? ≠ some '/'
    ∧ url.validEncoded .encodePath href = true
    ∧ (url.unescape .encodePath href).toOption.isSome = true
    ∧ ['.'] ∉ splitRunes '/' href ∧ ['.', '.'] ∉ splitRunes '/' href

instance (href : List Char) : Decidable (isAbsolutePathHref href) := by
  unfold isAbsolutePathHref; infer_instance

/-- A listing item of which only the anchor exists, with the given `href`. -/
def anchorItem (yc : ParseYungChing) (href : String) : ElementHandle String :=
  sampleItem yc (some href) none none

/-! ## Properties: arithmetic of the page count -/

theorem wrap64_of_isInt64 {x : Int} (h : isInt64 x) : wrap64 x = x := by
  unfold isInt64 int64Bound at h
  unfold wrap64 int64Bound
  omega

theorem ediv_facts {rows ps : Int} (h0 : 0 ≤ rows) (hp : 0 < ps) :
    0 ≤ rows / ps ∧ rows / ps ≤ rows ∧ (rows % ps ≠ 0 → rows / ps < rows) := by
  have hq : 0 ≤ rows / ps := Int.ediv_nonneg h0 hp.le
  have hm : 0 ≤ rows % ps := Int.emod_nonneg _ hp.ne.symm
  have hd := Int.emod_add_ediv rows ps
  have hmul : rows / ps ≤ ps * (rows / ps) := by nlinarith
  refine ⟨hq, by omega, fun hne => by omega⟩

theorem pageCount_eq {rows ps : Int} (h0 : 0 ≤ rows) (hr : rows < int64Bound) (hp : 0 < ps) :
    ParseYungChing.pageCount rows ps = rows / ps + (if rows % ps ≠ 0 then 1 else 0) := by
  obtain ⟨hq, hle, hlt⟩ := ediv_facts h0 hp
  unfold ParseYungChing.pageCount
  simp only [Int.tdiv_eq_ediv h0 hp.le, Int.tmod_eq_emod h0 hp.le]
  have h1 : wrap64 (rows / ps) = rows / ps :=
    wrap64_of_isInt64 ⟨by unfold int64Bound at *; omega, by omega⟩
  rw [h1]
  apply wrap64_of_isInt64
  unfold isInt64
  split_ifs with h
  · have := hlt h
    constructor <;> (unfold int64Bound at *; omega)
  · constructor <;> (unfold int64Bound at *; omega)

theorem ceil_div_eq {rows ps : Int} (hp : 0 < ps) :
    ⌈(rows : ℚ) / (ps : ℚ)⌉ = rows / ps + (if rows % ps ≠ 0 then 1 else 0) := by
  have hm : 0 ≤ rows % ps := Int.emod_nonneg _ hp.ne.symm
  have hm2 : rows % ps < ps := Int.emod_lt_of_pos _ hp
  have hd := Int.emod_add_ediv rows ps
  have hpq : (0 : ℚ) < (ps : ℚ) := by exact_mod_cast hp
  have hdq : ((rows % ps : Int) : ℚ) + (ps : ℚ) * ((rows / ps : Int) : ℚ) = (rows : ℚ) := by
    exact_mod_cast hd
  have hmq : (0 : ℚ) ≤ ((rows % ps : Int) : ℚ) := by exact_mod_cast hm
  have hm2q : ((rows % ps : Int) : ℚ) < (ps : ℚ) := by exact_mod_cast hm2
  rw [Int.ceil_eq_iff]
  split_ifs with h
  · have hpos : (0 : ℚ) < ((rows % ps : Int) : ℚ) := by
      have : 0 < rows % ps := by omega
      exact_mod_cast this
    push_cast
    constructor
    · rw [lt_div_iff₀ hpq]; nlinarith
    · rw [div_le_iff₀ hpq]; nlinarith
  · have hz : ((rows % ps : Int) : ℚ) = 0 := by
      have : rows % ps = 0 := by simpa using h
      exact_mod_cast this
    push_cast
    constructor
    · rw [lt_div_iff₀ hpq]; nlinarith
    · rw [div_le_iff₀ hpq]; nlinarith

theorem pageCount_pos {rows ps : Int} (h1 : 1 ≤ rows) (hr : rows < int64Bound) (hp : 0 < ps) :
    0 < ParseYungChing.pageCount rows ps := by
  rw [pageCount_eq (by omega) hr hp]
  have hq : 0 ≤ rows / ps := Int.ediv_nonneg (by omega) hp.le
  have hd := Int.emod_add_ediv rows ps
  split_ifs with h
  · omega
  · have hz : rows % ps = 0 := by simpa using h
    rcases hq.lt_or_eq with hlt | heq
    · omega
    · rw [hz, ← heq] at hd
      omega

/-! ## Properties: pagination controller -/

theorem SetTotalRow_known {κ σ ε : Type} (yc : ParseYungChing) (ctx : κ)
    (f : κ → String → σ → Except ε Int × σ) (w : σ) (h : yc.TotalPage ≠ 0) :
    yc.SetTotalRow ctx f w = (.ret none, yc, w) := by
  simp [ParseYungChing.SetTotalRow, h]

theorem SetTotalRow_fresh {κ σ ε : Type} (yc : ParseYungChing) (ctx : κ)
    (f : κ → String → σ → Except ε Int × σ) (w w1 : σ) (rows : Int)
    (hT : yc.TotalPage = 0) (hP : yc.PageSize ≠ 0)
    (hf : f ctx yc.Selectors.Total.Build w = (.ok rows, w1)) :
    yc.SetTotalRow ctx f w =
      (.ret none, { yc with TotalPage := ParseYungChing.pageCount rows yc.PageSize }, w1) := by
  simp [ParseYungChing.SetTotalRow, hT, hf, hP]

/-- C1: in a state with `TotalPage = 0` and `PageSize > 0`, when the row-count
fetch succeeds with `rows ≥ 0`, `SetTotalRow` returns no error and stores the
ceiling of `rows / PageSize`, which is the integer quotient plus one when the
remainder is not zero.  With page size 30: 91 rows give 4 pages, 90 give 3 and
0 give 0. -/
theorem SetTotalRow_stores_ceiling {κ σ ε : Type} (yc : ParseYungChing) (ctx : κ)
    (f : κ → String → σ → Except ε Int × σ) (w w1 : σ) (rows : Int)
    (hT : yc.TotalPage = 0) (hP : 0 < yc.PageSize)
    (hf : f ctx yc.Selectors.Total.Build w = (.ok rows, w1))
    (h0 : 0 ≤ rows) (hr : rows < int64Bound) :
    yc.SetTotalRow ctx f w =
        (.ret none, { yc with TotalPage := ⌈(rows : ℚ) / (yc.PageSize : ℚ)⌉ }, w1)
      ∧ ⌈(rows : ℚ) / (yc.PageSize : ℚ)⌉
          = rows / yc.PageSize + (if rows % yc.PageSize ≠ 0 then 1 else 0)
      ∧ (yc.PageSize = 30 → rows = 91 → (yc.SetTotalRow ctx f w).2.1.TotalPage = 4)
      ∧ (yc.PageSize = 30 → rows = 90 → (yc.SetTotalRow ctx f w).2.1.TotalPage = 3)
      ∧ (yc.PageSize = 30 → rows = 0 → (yc.SetTotalRow ctx f w).2.1.TotalPage = 0) := by
  have hrun := SetTotalRow_fresh yc ctx f w w1 rows hT hP.ne.symm hf
  have hceil : ⌈(rows : ℚ) / (yc.PageSize : ℚ)⌉
      = rows / yc.PageSize + (if rows % yc.PageSize ≠ 0 then 1 else 0) := ceil_div_eq hP
  refine ⟨?_, hceil, ?_, ?_, ?_⟩
  · rw [hrun, hceil, pageCount_eq h0 hr hP]
  · intro hps hrows
    rw [hrun, hps, hrows]
    exact (by decide : ParseYungChing.pageCount 91 30 = 4)
  · intro hps hrows
    rw [hrun, hps, hrows]
    exact (by decide : ParseYungChing.pageCount 90 30 = 3)
  · intro hps hrows
    rw [hrun, hps, hrows]
    exact (by decide : ParseYungChing.pageCount 0 30 = 0)

theorem SetTotalRow_stores_ceiling_witness :
    ((NewParseYungChing "台北市").SetTotalRow () (countingFetch 91) 0).2.1.TotalPage = 4 :=
  (SetTotalRow_stores_ceiling (NewParseYungChing "台北市") () (countingFetch 91) 0 1 91
    rfl (by decide) rfl (by decide) (by decide)).2.2.1 rfl rfl

/-- C2: `HasNext` is true when `TotalPage = 0` whatever the current page, false
when `TotalPage` is not zero and `CurrentPage ≥ TotalPage`, and true otherwise;
the call leaves the parser state (and the world) as it was. -/
theorem HasNext_cases {κ σ ε : Type} (yc : ParseYungChing) (w : σ) :
    yc.HasNext =
        (if yc.TotalPage = 0 then true
         else if yc.CurrentPage ≥ yc.TotalPage then false else true)
      ∧ (Op.HasNext : Op κ σ ε).exec yc w = (yc, w) := by
  refine ⟨?_, rfl⟩
  unfold ParseYungChing.HasNext
  by_cases h0 : yc.TotalPage = 0
  · simp [h0]
  · by_cases h1 : yc.CurrentPage ≥ yc.TotalPage
    · simp [h0, h1]
    · have h2 : yc.CurrentPage < yc.TotalPage := by omega
      simp [h0, h2]

/-- C3, as stated, fails: on a fresh parser a first fetch of 0 rows leaves
`TotalPage` at 0, and a second call with a fetch of 31 rows then stores 2. -/
theorem SetTotalRow_twice_zero_first :
    (((NewParseYungChing "台北市").SetTotalRow () (countingFetch 0) 0).2.1.SetTotalRow ()
        (countingFetch 31) 1).2.1.TotalPage = 2
      ∧ ((NewParseYungChing "台北市").SetTotalRow () (countingFetch 0) 0).2.1.TotalPage = 0
      ∧ ParseYungChing.pageCount 0 30 = 0 := by
  decide

/-- C3, amended: on a fresh parser, when the first fetch succeeds with a row
count `r1` whose page count is not zero, a second call of `SetTotalRow` with any
fetch leaves `TotalPage` at the value computed from `r1`, and does not run the
second fetch. -/
theorem SetTotalRow_twice {κ σ ε : Type} (city : String) (ctx1 ctx2 : κ)
    (f1 f2 : κ → String → σ → Except ε Int × σ) (w w1 : σ) (r1 : Int)
    (hf1 : f1 ctx1 (NewParseYungChing city).Selectors.Total.Build w = (.ok r1, w1))
    (hne : ParseYungChing.pageCount r1 30 ≠ 0) :
    (((NewParseYungChing city).SetTotalRow ctx1 f1 w).2.1.SetTotalRow ctx2 f2 w1).2.1.TotalPage
        = ParseYungChing.pageCount r1 30
      ∧ ((NewParseYungChing city).SetTotalRow ctx1 f1 w).2.1.TotalPage
        = ParseYungChing.pageCount r1 30
      ∧ (((NewParseYungChing city).SetTotalRow ctx1 f1 w).2.1.SetTotalRow ctx2 f2 w1).2.2 = w1 := by
  have h1 : (NewParseYungChing city).SetTotalRow ctx1 f1 w =
      (.ret none, { NewParseYungChing city with TotalPage := ParseYungChing.pageCount r1 30 }, w1) :=
    SetTotalRow_fresh (NewParseYungChing city) ctx1 f1 w w1 r1 rfl
      (by show (30 : Int) ≠ 0; decide) hf1
  have h2 := SetTotalRow_known
    { NewParseYungChing city with TotalPage := ParseYungChing.pageCount r1 30 } ctx2 f2 w1 hne
  rw [h1]
  show ({ NewParseYungChing city with
            TotalPage := ParseYungChing.pageCount r1 30 }.SetTotalRow ctx2 f2 w1).2.1.TotalPage = _
        ∧ _ ∧ ({ NewParseYungChing city with
            TotalPage := ParseYungChing.pageCount r1 30 }.SetTotalRow ctx2 f2 w1).2.2 = w1
  rw [h2]
  exact ⟨rfl, rfl, rfl⟩

theorem SetTotalRow_twice_witness :
    (((NewParseYungChing "台北市").SetTotalRow () (countingFetch 91) 0).2.1.SetTotalRow ()
        (countingFetch 31) 1).2.1.TotalPage = ParseYungChing.pageCount 91 30 :=
  (SetTotalRow_twice "台北市" () () (countingFetch 91) (countingFetch 31) 0 1 91 rfl
    (by decide)).1

/-- C4: once `TotalPage` is not zero, no call changes it; and `SetTotalRow` in
such a state returns no error, does not run the fetch (the world is as before)
and leaves the whole state as it was, whatever the fetch would answer. -/
theorem TotalPage_frozen {κ σ ε : Type} (yc : ParseYungChing) (h : yc.TotalPage ≠ 0) :
    (∀ (op : Op κ σ ε) (w : σ), (op.exec yc w).1.TotalPage = yc.TotalPage)
      ∧ ∀ (ctx : κ) (f : κ → String → σ → Except ε Int × σ) (w : σ),
          yc.SetTotalRow ctx f w = (.ret none, yc, w) := by
  refine ⟨?_, fun ctx f w => SetTotalRow_known yc ctx f w h⟩
  intro op w
  cases op with
  | UpdateCurrentPage => rfl
  | SetTotalRow ctx f =>
    show (yc.SetTotalRow ctx f w).2.1.TotalPage = yc.TotalPage
    rw [SetTotalRow_known yc ctx f w h]
  | _ => rfl

theorem TotalPage_frozen_witness :
    ({ NewParseYungChing "台北市" with TotalPage := 4 }.SetTotalRow ()
        (failingFetch "timeout") 0) = (.ret none, { NewParseYungChing "台北市" with TotalPage := 4 }, 0) :=
  (@TotalPage_frozen Unit Nat String
    { NewParseYungChing "台北市" with TotalPage := 4 } (by decide)).2 () (failingFetch "timeout") 0

/-! ## Properties: string helpers -/

theorem stringsHasPrefix_append (p r : List Char) : stringsHasPrefix (p ++ r) p = true := by
  induction p with
  | nil => cases r <;> rfl
  | cons c p ih => simp [stringsHasPrefix, ih]

theorem removeFirst_append_self (p r : List Char) : removeFirst p (p ++ r) = r := by
  cases hs : p ++ r with
  | nil =>
    have hr : r = [] := (List.append_eq_nil.mp hs).2
    simp [removeFirst, hr]
  | cons c s =>
    have hp : stringsHasPrefix (c :: s) p = true := by
      rw [← hs]; exact stringsHasPrefix_append p r
    simp only [removeFirst, hp, if_true]
    rw [← hs, List.drop_left]

theorem removeFirst_self (p : List Char) : removeFirst p p = [] := by
  have h := removeFirst_append_self p []
  rwa [List.append_nil] at h

theorem sectionScan_append_drop (s : List Char) :
    sectionScan s ++ s.drop (sectionScan s).length = s := by
  induction s with
  | nil => rfl
  | cons c s ih =>
    unfold sectionScan
    split_ifs with h
    · simp
    · simpa using ih

theorem sectionScan_first_glyph (pre : List Char) (g : Char) (rest : List Char)
    (hpre : ∀ c ∈ pre, isBoundaryGlyph c = false) (hg : isBoundaryGlyph g = true) :
    sectionScan (pre ++ g :: rest) = pre ++ [g] := by
  induction pre with
  | nil => simp [sectionScan, hg]
  | cons c pre ih =>
    have hc : isBoundaryGlyph c = false := hpre c (List.mem_cons_self _ _)
    have ih2 := ih (fun d hd => hpre d (List.mem_cons_of_mem _ hd))
    simp [sectionScan, hc, ih2]

theorem sectionScan_no_glyph (s : List Char) (h : ∀ c ∈ s, isBoundaryGlyph c = false) :
    sectionScan s = s := by
  induction s with
  | nil => rfl
  | cons c s ih =>
    have hc : isBoundaryGlyph c = false := h c (List.mem_cons_self _ _)
    have ih2 := ih (fun d hd => h d (List.mem_cons_of_mem _ hd))
    simp [sectionScan, hc, ih2]

theorem first_glyph_split (s : List Char) (h : ∃ g ∈ s, isBoundaryGlyph g = true) :
    ∃ pre g rest, s = pre ++ g :: rest ∧ (∀ c ∈ pre, isBoundaryGlyph c = false)
      ∧ isBoundaryGlyph g = true := by
  induction s with
  | nil => obtain ⟨g, hg, _⟩ := h; cases hg
  | cons c s ih =>
    by_cases hc : isBoundaryGlyph c = true
    · exact ⟨[], c, s, rfl, fun d hd => absurd hd (List.not_mem_nil d), hc⟩
    · have hc2 : isBoundaryGlyph c = false := by simpa using hc
      obtain ⟨g, hg, hgb⟩ := h
      have hgs : g ∈ s := by
        rcases List.mem_cons.mp hg with heq | hmem
        · rw [heq] at hgb; exact absurd hgb hc
        · exact hmem
      obtain ⟨pre, g2, rest, hs, hpre, hg2⟩ := ih ⟨g, hgs, hgb⟩
      refine ⟨c :: pre, g2, rest, by rw [hs]; rfl, ?_, hg2⟩
      intro d hd
      rcases List.mem_cons.mp hd with heq | hmem
      · rw [heq]; exact hc2
      · exact hpre d hmem

/-! ## Properties: address extraction -/

theorem Address_found {ε : Type} (yc : ParseYungChing) (item element : ElementHandle ε)
    (text : String) (req : UpsertHourseRequest)
    (hq : item.QuerySelector yc.Selectors.Address.Build = .ok (some element))
    (ht : element.TextContent = .ok text) :
    yc.Address item req =
      (none, { req with
                 Section := ⟨sectionScan (stringsReplaceOnce text yc.City).data⟩
                 Address := ⟨(stringsReplaceOnce text yc.City).data.drop
                   (sectionScan (stringsReplaceOnce text yc.City).data).length⟩ }) := by
  have hcut : removeFirst (sectionScan (stringsReplaceOnce text yc.City).data)
      (stringsReplaceOnce text yc.City).data
        = (stringsReplaceOnce text yc.City).data.drop
            (sectionScan (stringsReplaceOnce text yc.City).data).length := by
    have h := removeFirst_append_self (sectionScan (stringsReplaceOnce text yc.City).data)
      ((stringsReplaceOnce text yc.City).data.drop
        (sectionScan (stringsReplaceOnce text yc.City).data).length)
    rwa [sectionScan_append_drop] at h
  simp only [ParseYungChing.Address, hq, ht]
  rw [show stringsReplaceOnce (stringsReplaceOnce text yc.City)
        ⟨sectionScan (stringsReplaceOnce text yc.City).data⟩
      = ⟨(stringsReplaceOnce text yc.City).data.drop
            (sectionScan (stringsReplaceOnce text yc.City).data).length⟩ from by
    simp only [stringsReplaceOnce] at hcut ⊢
    rw [hcut]]

/-- C5, as stated, fails: for city "台北市" and address text
"台北市大安區仁愛路四段", `Address` succeeds with section "大安區", which is not a
prefix of the text read from the element, and the remaining address is not
that text with the section removed once.  For the text "大安區" the section is
the whole of the text, so the prefix is not strict either. -/
theorem Address_section_not_prefix_of_text :
    (NewParseYungChing "台北市").Address
        (sampleItem (NewParseYungChing "台北市") none (some "台北市大安區仁愛路四段") none)
        UpsertHourseRequest.zero
      = (none, { UpsertHourseRequest.zero with Section := "大安區", Address := "仁愛路四段" })
    ∧ ¬ ("大安區".data <+: "台北市大安區仁愛路四段".data)
    ∧ stringsReplaceOnce "台北市大安區仁愛路四段" "大安區" ≠ "仁愛路四段"
    ∧ (NewParseYungChing "台北市").Address
        (sampleItem (NewParseYungChing "台北市") none (some "大安區") none)
        UpsertHourseRequest.zero
      = (none, { UpsertHourseRequest.zero with Section := "大安區", Address := "" }) := by
  decide

/-- C5, amended: whenever `Address` succeeds, the address element exists with
a readable text, the section written to the record is a prefix (possibly the
whole) of that text after the first occurrence of the city name has been
removed, and the remaining address is that shortened text with the section
removed once, so that section followed by remaining address is the shortened
text. -/
theorem Address_section_prefix {ε : Type} (yc : ParseYungChing) (item : ElementHandle ε)
    (req res : UpsertHourseRequest) (h : yc.Address item req = (none, res)) :
    ∃ element text,
      item.QuerySelector yc.Selectors.Address.Build = .ok (some element)
      ∧ element.TextContent = .ok text
      ∧ res.Section.data <+: (stringsReplaceOnce text yc.City).data
      ∧ res.Address = stringsReplaceOnce (stringsReplaceOnce text yc.City) res.Section
      ∧ res.Section ++ res.Address = stringsReplaceOnce text yc.City := by
  cases hq : item.QuerySelector yc.Selectors.Address.Build with
  | error e => simp [ParseYungChing.Address, hq] at h
  | ok found =>
    cases found with
    | none => simp [ParseYungChing.Address, hq] at h
    | some element =>
      cases ht : element.TextContent with
      | error e => simp [ParseYungChing.Address, hq, ht] at h
      | ok text =>
        have hres : res = { req with
            Section := ⟨sectionScan (stringsReplaceOnce text yc.City).data⟩
            Address := stringsReplaceOnce (stringsReplaceOnce text yc.City)
              ⟨sectionScan (stringsReplaceOnce text yc.City).data⟩ } := by
          simp only [ParseYungChing.Address, hq, ht] at h
          exact (Prod.mk.inj h).2.symm
        have hfound := Address_found yc item element text req hq ht
        rw [h] at hfound
        have hres2 := (Prod.mk.inj hfound).2
        refine ⟨element, text, rfl, ht, ?_, ?_, ?_⟩
        · rw [hres2]
          exact ⟨_, sectionScan_append_drop _⟩
        · rw [hres]
        · rw [hres2]
          apply String.ext
          simp only [String.data_append]
          exact sectionScan_append_drop _

theorem Address_section_prefix_witness :
    (NewParseYungChing "台北市").Address
        (sampleItem (NewParseYungChing "台北市") none (some "台北市大安區仁愛路四段") none)
        UpsertHourseRequest.zero
      = (none, { UpsertHourseRequest.zero with Section := "大安區", Address := "仁愛路四段" })
    ∧ ∃ element text,
      (sampleItem (NewParseYungChing "台北市") none (some "台北市大安區仁愛路四段") none).QuerySelector
          (NewParseYungChing "台北市").Selectors.Address.Build = .ok (some element)
      ∧ element.TextContent = .ok text
      ∧ "大安區".data <+: (stringsReplaceOnce text "台北市").data
      ∧ "仁愛路四段" = stringsReplaceOnce (stringsReplaceOnce text "台北市") "大安區"
      ∧ "大安區" ++ "仁愛路四段" = stringsReplaceOnce text "台北市" :=
  ⟨by decide,
    Address_section_prefix (NewParseYungChing "台北市")
      (sampleItem (NewParseYungChing "台北市") none (some "台北市大安區仁愛路四段") none)
      UpsertHourseRequest.zero
      { UpsertHourseRequest.zero with Section := "大安區", Address := "仁愛路四段" } (by decide)⟩

/-- C6: let `t1` be the address text with the first occurrence of the city
name removed.  If `t1` contains a boundary glyph, then `t1 = pre ++ g :: rest`
where `g` is its first boundary glyph, and `Address` succeeds, setting the
section to `pre ++ [g]` and the remaining address to `rest`.  For city "台北市"
and text "台北市大安區仁愛路四段" the section is "大安區" and the remaining address
is "仁愛路四段". -/
theorem Address_splits_at_first_glyph {ε : Type} (yc : ParseYungChing)
    (item element : ElementHandle ε) (text : String) (req : UpsertHourseRequest)
    (hq : item.QuerySelector yc.Selectors.Address.Build = .ok (some element))
    (ht : element.TextContent = .ok text)
    (hg : ∃ g ∈ (stringsReplaceOnce text yc.City).data, isBoundaryGlyph g = true) :
    (∃ pre g rest,
        (stringsReplaceOnce text yc.City).data = pre ++ g :: rest
        ∧ (∀ c ∈ pre, isBoundaryGlyph c = false)
        ∧ isBoundaryGlyph g = true
        ∧ yc.Address item req = (none, { req with Section := ⟨pre ++ [g]⟩, Address := ⟨rest⟩ }))
      ∧ (yc.City = "台北市" → text = "台北市大安區仁愛路四段" →
          yc.Address item req = (none, { req with Section := "大安區", Address := "仁愛路四段" })) := by
  have hfound := Address_found yc item element text req hq ht
  constructor
  · obtain ⟨pre, g, rest, hs, hpre, hgb⟩ := first_glyph_split _ hg
    refine ⟨pre, g, rest, hs, hpre, hgb, ?_⟩
    rw [hfound, hs, sectionScan_first_glyph pre g rest hpre hgb]
    have hdrop : (pre ++ g :: rest).drop (pre ++ [g]).length = rest := by
      have : pre ++ g :: rest = (pre ++ [g]) ++ rest := by simp
      rw [this, List.drop_left]
    rw [hdrop]
  · intro hc htext
    rw [hfound, hc, htext]
    have h1 : (⟨sectionScan (stringsReplaceOnce "台北市大安區仁愛路四段" "台北市").data⟩ : String)
        = "大安區" := by decide
    have h2 : (⟨(stringsReplaceOnce "台北市大安區仁愛路四段" "台北市").data.drop
        (sectionScan (stringsReplaceOnce "台北市大安區仁愛路四段" "台北市").data).length⟩ : String)
        = "仁愛路四段" := by decide
    rw [h1, h2]

theorem Address_splits_at_first_glyph_witness :
    (NewParseYungChing "台北市").Address
        (sampleItem (NewParseYungChing "台北市") none (some "台北市大安區仁愛路四段") none)
        UpsertHourseRequest.zero
      = (none, { UpsertHourseRequest.zero with Section := "大安區", Address := "仁愛路四段" }) :=
  (Address_splits_at_first_glyph (NewParseYungChing "台北市")
    (sampleItem (NewParseYungChing "台北市") none (some "台北市大安區仁愛路四段") none)
    (leafElement "台北市大安區仁愛路四段" "") "台北市大安區仁愛路四段" UpsertHourseRequest.zero
    rfl rfl ⟨'區', by decide, by decide⟩).2 rfl rfl

/-- C7, as stated, fails: for city "台北市" and address text "台北市仁愛路四段",
which has no boundary glyph once the city name is removed, `Address` returns
no error, and `FetchItem` on the item succeeds; the whole shortened text has
become the section and the remaining address is empty. -/
theorem Address_without_glyph_succeeds :
    (stringsReplaceOnce "台北市仁愛路四段" "台北市").data.all (fun c => !isBoundaryGlyph c) = true
    ∧ (NewParseYungChing "台北市").Address
        (sampleItem (NewParseYungChing "台北市") none (some "台北市仁愛路四段") none)
        UpsertHourseRequest.zero
      = (none, { UpsertHourseRequest.zero with Section := "仁愛路四段", Address := "" })
    ∧ (NewParseYungChing "台北市").FetchItem sampleURL samplePrice
        (some (sampleItem (NewParseYungChing "台北市") none (some "台北市仁愛路四段")
          (some ["公寓", "30年", "3樓", "", "20坪", "30坪", "3房", "", ""])))
      = .ret ({ City := "台北市", Section := "仁愛路四段", Address := "", Link := "",
                Price := 1280, Shape := "公寓", Age := "30年", Floor := "3樓",
                Mainarea := "20坪", Area := "30坪", Layout := "3房", Others := [] }, none) := by
  decide

/-- C7, amended: when the address element exists and its text, after the first
occurrence of the city name is removed, contains no boundary glyph, `Address`
returns no error: the section becomes the whole of the shortened text and the
remaining address is empty. -/
theorem Address_without_glyph {ε : Type} (yc : ParseYungChing)
    (item element : ElementHandle ε) (text : String) (req : UpsertHourseRequest)
    (hq : item.QuerySelector yc.Selectors.Address.Build = .ok (some element))
    (ht : element.TextContent = .ok text)
    (hno : ∀ c ∈ (stringsReplaceOnce text yc.City).data, isBoundaryGlyph c = false) :
    yc.Address item req =
      (none, { req with Section := stringsReplaceOnce text yc.City, Address := "" }) := by
  rw [Address_found yc item element text req hq ht, sectionScan_no_glyph _ hno,
    List.drop_length]

theorem Address_without_glyph_witness :
    (NewParseYungChing "台北市").Address
        (sampleItem (NewParseYungChing "台北市") none (some "台北市仁愛路四段") none)
        UpsertHourseRequest.zero
      = (none, { UpsertHourseRequest.zero with
                   Section := stringsReplaceOnce "台北市仁愛路四段" "台北市", Address := "" }) :=
  Address_without_glyph (NewParseYungChing "台北市")
    (sampleItem (NewParseYungChing "台北市") none (some "台北市仁愛路四段") none)
    (leafElement "台北市仁愛路四段" "") "台北市仁愛路四段" UpsertHourseRequest.zero
    rfl rfl (by decide)

/-! ## Properties: record extraction -/

theorem GoResult.ret_bind {α β : Type} (a : α) (k : α → GoResult β) :
    (GoResult.ret a >>= k) = k a := rfl

theorem GoResult.pure_eq {α : Type} (a : α) : (pure a : GoResult α) = GoResult.ret a := rfl

theorem UpdateField_ret {ε : Type} (detail : List (ElementHandle ε)) (idx : Nat) (field : String)
    (h : idx < detail.length) :
    ∃ v, ParseYungChing.UpdateField detail idx field = .ret v := by
  unfold ParseYungChing.UpdateField
  rw [List.get?_eq_get h]
  dsimp only
  generalize (detail.get ⟨idx, h⟩).TextContent = tc
  cases tc with
  | error e => exact ⟨_, rfl⟩
  | ok text => exact ⟨_, rfl⟩

theorem appendNote_ret {ε : Type} (detail : List (ElementHandle ε)) (others : List String)
    (num : Nat) (h : num < detail.length) :
    ∃ v, ParseYungChing.appendNote detail others num = .ret v := by
  unfold ParseYungChing.appendNote
  rw [List.get?_eq_get h]
  dsimp only
  generalize (detail.get ⟨num, h⟩).TextContent = tc
  cases tc with
  | error e => exact ⟨_, rfl⟩
  | ok text =>
    by_cases hb : stringsTrimSpace text = ""
    · exact ⟨others, by simp [hb]⟩
    · exact ⟨others ++ [stringsTrimSpace text], by simp [hb]⟩

theorem splitRunes_ne_nil (sep : Char) (s : List Char) : splitRunes sep s ≠ [] := by
  cases s with
  | nil => simp [splitRunes]
  | cons c s =>
    unfold splitRunes
    split_ifs
    · simp
    · cases splitRunes sep s <;> simp

theorem lastFloor_ret (floor : String) : ∃ seg, ParseYungChing.lastFloor floor = .ret seg := by
  unfold ParseYungChing.lastFloor
  cases hl : (stringsSplit floor '~').getLast? with
  | none =>
    exfalso
    rw [List.getLast?_eq_none_iff] at hl
    unfold stringsSplit at hl
    exact splitRunes_ne_nil '~' floor.data (List.map_eq_nil_iff.mp hl)
  | some seg => exact ⟨seg, rfl⟩

theorem fillDetail_ret {ε : Type} (detail : List (ElementHandle ε)) (result : UpsertHourseRequest)
    (h : detail.length = 9) :
    ∃ rec, ParseYungChing.fillDetail detail result = .ret (rec, (none : Option (GoError ε))) := by
  obtain ⟨shape, h0⟩ := UpdateField_ret detail 0 result.Shape (by omega)
  obtain ⟨age, h1⟩ := UpdateField_ret detail 1 result.Age (by omega)
  obtain ⟨floor, h2⟩ := UpdateField_ret detail 2 result.Floor (by omega)
  obtain ⟨mainarea, h4⟩ := UpdateField_ret detail 4 result.Mainarea (by omega)
  obtain ⟨area, h5⟩ := UpdateField_ret detail 5 result.Area (by omega)
  obtain ⟨layout, h6⟩ := UpdateField_ret detail 6 result.Layout (by omega)
  obtain ⟨o3, h3⟩ := appendNote_ret detail result.Others 3 (by omega)
  obtain ⟨o7, h7⟩ := appendNote_ret detail o3 7 (by omega)
  obtain ⟨o8, h8⟩ := appendNote_ret detail o7 8 (by omega)
  obtain ⟨last, hlast⟩ := lastFloor_ret floor.1
  refine ⟨{ result with
      Shape := shape.1, Age := age.1, Floor := last, Mainarea := mainarea.1,
      Area := area.1, Layout := layout.1, Others := o8 }, ?_⟩
  simp only [ParseYungChing.fillDetail, h0, h1, h2, h4, h5, h6, List.foldlM, h3, h7, h8, hlast,
    GoResult.ret_bind, GoResult.pure_eq]

theorem Address_keeps_fields {ε : Type} (yc : ParseYungChing) (item : ElementHandle ε)
    (req res : UpsertHourseRequest) (e : Option (GoError ε))
    (h : yc.Address item req = (e, res)) :
    res.City = req.City ∧ res.Link = req.Link ∧ res.Price = req.Price ∧ res.Shape = req.Shape
      ∧ res.Age = req.Age ∧ res.Floor = req.Floor ∧ res.Mainarea = req.Mainarea
      ∧ res.Area = req.Area ∧ res.Layout = req.Layout ∧ res.Others = req.Others := by
  unfold ParseYungChing.Address at h
  cases hq : item.QuerySelector yc.Selectors.Address.Build with
  | error err =>
    rw [hq] at h
    obtain ⟨-, rfl⟩ := Prod.mk.inj h
    simp
  | ok found =>
    cases found with
    | none =>
      rw [hq] at h
      obtain ⟨-, rfl⟩ := Prod.mk.inj h
      simp
    | some element =>
      cases ht : element.TextContent with
      | error err =>
        simp only [hq, ht] at h
        obtain ⟨-, rfl⟩ := Prod.mk.inj h
        simp
      | ok text =>
        simp only [hq, ht] at h
        obtain ⟨-, rfl⟩ := Prod.mk.inj h
        simp

theorem FetchItem_at_detail {ε : Type} (yc : ParseYungChing) (lib : NetURL ε) (price : PriceFn ε)
    (item : ElementHandle ε) (link : String) (p : Int) (res : UpsertHourseRequest)
    (hl : yc.Link lib item = (link, none)) (hp : yc.Price price item = (p, none))
    (ha : yc.Address item
      { UpsertHourseRequest.zero with City := yc.City, Link := link, Price := p } = (none, res)) :
    yc.FetchItem lib price (some item) =
      match item.QuerySelector yc.Selectors.Detail.Build with
      | .error err => .ret (res, some (.external err))
      | .ok none => .panic .nilDereference
      | .ok (some detailElement) =>
        match detailElement.QuerySelectorAll "li" with
        | .error err => .ret (res, some (.external err))
        | .ok detail =>
          if detail.length ≠ 9 then .ret (res, some (.errorsNew ""))
          else ParseYungChing.fillDetail detail res := by
  unfold ParseYungChing.FetchItem
  simp only [hl, hp]
  rw [ha]

theorem FetchItem_absent_detail {ε : Type} (yc : ParseYungChing) (lib : NetURL ε)
    (price : PriceFn ε) (item : ElementHandle ε) (link : String) (p : Int)
    (res : UpsertHourseRequest)
    (hl : yc.Link lib item = (link, none)) (hp : yc.Price price item = (p, none))
    (ha : yc.Address item
      { UpsertHourseRequest.zero with City := yc.City, Link := link, Price := p } = (none, res))
    (hd : item.QuerySelector yc.Selectors.Detail.Build = .ok none) :
    yc.FetchItem lib price (some item) = .panic .nilDereference := by
  rw [FetchItem_at_detail yc lib price item link p res hl hp ha, hd]

theorem FetchItem_absent_address {ε : Type} (yc : ParseYungChing) (lib : NetURL ε)
    (price : PriceFn ε) (item : ElementHandle ε) (link : String) (p : Int)
    (hl : yc.Link lib item = (link, none)) (hp : yc.Price price item = (p, none))
    (ha : item.QuerySelector yc.Selectors.Address.Build = .ok none) :
    yc.FetchItem lib price (some item) =
      .ret ({ UpsertHourseRequest.zero with City := yc.City, Link := link, Price := p },
            some (.errorsNew "")) := by
  unfold ParseYungChing.FetchItem
  simp only [hl, hp, ParseYungChing.Address, ha]

/-- C8: for a non-nil item whose link, price and address extraction succeed and
whose detail-list element exists, `FetchItem` returns (it does not panic), and
it returns an error exactly when the query for the `li` children fails or the
number of children is not nine; in particular eight children make it fail. -/
theorem FetchItem_error_iff_count {ε : Type} (yc : ParseYungChing) (lib : NetURL ε)
    (price : PriceFn ε) (item detailElement : ElementHandle ε) (link : String) (p : Int)
    (res : UpsertHourseRequest)
    (hl : yc.Link lib item = (link, none)) (hp : yc.Price price item = (p, none))
    (ha : yc.Address item
      { UpsertHourseRequest.zero with City := yc.City, Link := link, Price := p } = (none, res))
    (hd : item.QuerySelector yc.Selectors.Detail.Build = .ok (some detailElement)) :
    (∃ r, yc.FetchItem lib price (some item) = .ret r)
      ∧ ((∃ rec err, yc.FetchItem lib price (some item) = .ret (rec, some err))
          ↔ ((∃ e, detailElement.QuerySelectorAll "li" = .error e)
              ∨ ∃ detail, detailElement.QuerySelectorAll "li" = .ok detail ∧ detail.length ≠ 9))
      ∧ ∀ detail, detailElement.QuerySelectorAll "li" = .ok detail → detail.length = 8 →
          ∃ rec err, yc.FetchItem lib price (some item) = .ret (rec, some err) := by
  have hrun := FetchItem_at_detail yc lib price item link p res hl hp ha
  rw [hd] at hrun
  dsimp only at hrun
  cases hall : detailElement.QuerySelectorAll "li" with
  | error e =>
    rw [hall] at hrun
    dsimp only at hrun
    refine ⟨⟨_, hrun⟩, ⟨fun _ => Or.inl ⟨e, rfl⟩, fun _ => ⟨_, _, hrun⟩⟩, ?_⟩
    intro detail hdet
    cases hdet
  | ok detail =>
    rw [hall] at hrun
    dsimp only at hrun
    by_cases hlen : detail.length = 9
    · obtain ⟨rec, hfill⟩ := @fillDetail_ret ε detail res hlen
      have hrun2 : yc.FetchItem lib price (some item) = .ret (rec, none) := by
        rw [hrun, if_neg (by simpa using hlen), hfill]
      refine ⟨⟨_, hrun2⟩, ⟨?_, ?_⟩, ?_⟩
      · rintro ⟨rec2, err, herr⟩
        rw [hrun2] at herr
        cases herr
      · rintro (⟨e, he⟩ | ⟨detail2, hd2, hne⟩)
        · cases he
        · cases hd2
          exact absurd hlen hne
      · intro detail2 hd2 h8
        cases hd2
        omega
    · have hrun2 : yc.FetchItem lib price (some item) = .ret (res, some (.errorsNew "")) := by
        rw [hrun, if_pos hlen]
      refine ⟨⟨_, hrun2⟩, ⟨fun _ => Or.inr ⟨detail, rfl, hlen⟩, fun _ => ⟨_, _, hrun2⟩⟩, ?_⟩
      intro detail2 hd2 h8
      exact ⟨_, _, hrun2⟩

theorem FetchItem_error_iff_count_witness :
    ∃ rec err, (NewParseYungChing "台北市").FetchItem sampleURL samplePrice
      (some (sampleItem (NewParseYungChing "台北市") none (some "台北市大安區仁愛路四段")
        (some ["公寓", "30年", "3樓", "", "20坪", "30坪", "3房", ""]))) = .ret (rec, some err) :=
  (FetchItem_error_iff_count (NewParseYungChing "台北市") sampleURL samplePrice
    (sampleItem (NewParseYungChing "台北市") none (some "台北市大安區仁愛路四段")
      (some ["公寓", "30年", "3樓", "", "20坪", "30坪", "3房", ""]))
    (detailList ["公寓", "30年", "3樓", "", "20坪", "30坪", "3房", ""]) "" 1280
    { UpsertHourseRequest.zero with
        City := "台北市", Price := 1280, Section := "大安區", Address := "仁愛路四段" }
    rfl rfl (by decide) rfl).2.2 _ rfl rfl

/-- C9, as stated, fails: for an item with eight detail children `FetchItem`
returns an error together with a record in which the city, the price, the
section and the remaining address are already filled in. -/
theorem FetchItem_error_with_partial_record :
    (NewParseYungChing "台北市").FetchItem sampleURL samplePrice
        (some (sampleItem (NewParseYungChing "台北市") none (some "台北市大安區仁愛路四段")
          (some ["公寓", "30年", "3樓", "", "20坪", "30坪", "3房", ""])))
      = .ret ({ UpsertHourseRequest.zero with
                  City := "台北市", Price := 1280, Section := "大安區", Address := "仁愛路四段" },
              some (.errorsNew ""))
    ∧ { UpsertHourseRequest.zero with
          City := "台北市", Price := 1280, Section := "大安區", Address := "仁愛路四段" }
        ≠ UpsertHourseRequest.zero := by
  decide

theorem Link_error_empty {ε : Type} (yc : ParseYungChing) (lib : NetURL ε)
    (handle : ElementHandle ε) (link : String) (err : GoError ε)
    (h : yc.Link lib handle = (link, some err)) : link = "" := by
  unfold ParseYungChing.Link at h
  cases hq : handle.QuerySelector yc.Selectors.Link.Build with
  | error e =>
    rw [hq] at h
    exact (Prod.mk.inj h).1.symm
  | ok found =>
    cases found with
    | none =>
      rw [hq] at h
      cases (Prod.mk.inj h).2
    | some element =>
      rw [hq] at h
      dsimp only at h
      cases hg : element.GetAttribute "href" with
      | error e =>
        rw [hg] at h
        exact (Prod.mk.inj h).1.symm
      | ok href =>
        rw [hg] at h
        dsimp only at h
        by_cases hs : stringsHasPrefix href.data "https".data = true
        · rw [if_pos hs] at h
          exact (Prod.mk.inj h).1.symm
        · rw [if_neg hs] at h
          cases hp : lib.Parse href with
          | error e =>
            rw [hp] at h
            exact (Prod.mk.inj h).1.symm
          | ok path =>
            rw [hp] at h
            dsimp only at h
            cases hb : lib.Parse "https://buy.yungching.com.tw" with
            | error e =>
              rw [hb] at h
              exact (Prod.mk.inj h).1.symm
            | ok host =>
              rw [hb] at h
              cases (Prod.mk.inj h).2

theorem Address_outcome {ε : Type} (yc : ParseYungChing) (item : ElementHandle ε)
    (req res : UpsertHourseRequest) (e : Option (GoError ε))
    (h : yc.Address item req = (e, res)) :
    (e ≠ none ∧ res = req)
      ∨ (e = none ∧ ∃ element text,
          item.QuerySelector yc.Selectors.Address.Build = .ok (some element)
          ∧ element.TextContent = .ok text
          ∧ res = { req with
              Section := ⟨sectionScan (stringsReplaceOnce text yc.City).data⟩
              Address := stringsReplaceOnce (stringsReplaceOnce text yc.City)
                ⟨sectionScan (stringsReplaceOnce text yc.City).data⟩ }) := by
  unfold ParseYungChing.Address at h
  cases hq : item.QuerySelector yc.Selectors.Address.Build with
  | error err =>
    rw [hq] at h
    obtain ⟨rfl, rfl⟩ := Prod.mk.inj h
    exact Or.inl ⟨by simp, rfl⟩
  | ok found =>
    cases found with
    | none =>
      rw [hq] at h
      obtain ⟨rfl, rfl⟩ := Prod.mk.inj h
      exact Or.inl ⟨by simp, rfl⟩
    | some element =>
      cases ht : element.TextContent with
      | error err =>
        simp only [hq, ht] at h
        obtain ⟨rfl, rfl⟩ := Prod.mk.inj h
        exact Or.inl ⟨by simp, rfl⟩
      | ok text =>
        simp only [hq, ht] at h
        obtain ⟨rfl, rfl⟩ := Prod.mk.inj h
        exact Or.inr ⟨rfl, element, text, rfl, ht, rfl⟩

/-- C9, amended: whenever `FetchItem` returns an error, the item is not nil and
the record returned with the error is the record as the steps completed before
the failure left it.  If `Link` fails, only the city is set.  If the price
helper fails, the city, the link and the number the helper returned are set.
If `Address` fails, the city, the link and the price are set.  If the detail
list fails (its query, the query for its children, or a child count other than
nine), the city, the link, the price and the section and remaining address
written by `Address` are set.  The detail fields (shape, age, floor, main area,
area, layout, notes) are empty in every case. -/
theorem FetchItem_error_record {ε : Type} (yc : ParseYungChing) (lib : NetURL ε)
    (price : PriceFn ε) (item : Option (ElementHandle ε)) (rec : UpsertHourseRequest)
    (err : GoError ε) (h : yc.FetchItem lib price item = .ret (rec, some err)) :
    item ≠ none
      ∧ rec = { UpsertHourseRequest.zero with
                  City := yc.City, Link := rec.Link, Price := rec.Price,
                  Section := rec.Section, Address := rec.Address }
      ∧ ∃ it, item = some it
          ∧ ((yc.Link lib it = ("", some err)
                ∧ rec = { UpsertHourseRequest.zero with City := yc.City })
            ∨ (∃ link p, yc.Link lib it = (link, none) ∧ yc.Price price it = (p, some err)
                ∧ rec = { UpsertHourseRequest.zero with
                            City := yc.City, Link := link, Price := p })
            ∨ (∃ link p, yc.Link lib it = (link, none) ∧ yc.Price price it = (p, none)
                ∧ yc.Address it
                    { UpsertHourseRequest.zero with City := yc.City, Link := link, Price := p }
                    = (some err, rec)
                ∧ rec = { UpsertHourseRequest.zero with
                            City := yc.City, Link := link, Price := p })
            ∨ (∃ link p element text,
                yc.Link lib it = (link, none) ∧ yc.Price price it = (p, none)
                ∧ it.QuerySelector yc.Selectors.Address.Build = .ok (some element)
                ∧ element.TextContent = .ok text
                ∧ yc.Address it
                    { UpsertHourseRequest.zero with City := yc.City, Link := link, Price := p }
                    = (none, rec)
                ∧ rec = { UpsertHourseRequest.zero with
                            City := yc.City, Link := link, Price := p
                            Section := ⟨sectionScan (stringsReplaceOnce text yc.City).data⟩
                            Address := stringsReplaceOnce (stringsReplaceOnce text yc.City)
                              ⟨sectionScan (stringsReplaceOnce text yc.City).data⟩ }
                ∧ ((∃ e, it.QuerySelector yc.Selectors.Detail.Build = .error e
                      ∧ err = .external e)
                  ∨ (∃ detailElement e,
                      it.QuerySelector yc.Selectors.Detail.Build = .ok (some detailElement)
                      ∧ detailElement.QuerySelectorAll "li" = .error e ∧ err = .external e)
                  ∨ (∃ detailElement detail,
                      it.QuerySelector yc.Selectors.Detail.Build = .ok (some detailElement)
                      ∧ detailElement.QuerySelectorAll "li" = .ok detail
                      ∧ detail.length ≠ 9 ∧ err = .errorsNew "")))) := by
  cases item with
  | none => simp [ParseYungChing.FetchItem] at h
  | some item =>
    have hcases : (yc.Link lib item = ("", some err)
                ∧ rec = { UpsertHourseRequest.zero with City := yc.City })
            ∨ (∃ link p, yc.Link lib item = (link, none) ∧ yc.Price price item = (p, some err)
                ∧ rec = { UpsertHourseRequest.zero with
                            City := yc.City, Link := link, Price := p })
            ∨ (∃ link p, yc.Link lib item = (link, none) ∧ yc.Price price item = (p, none)
                ∧ yc.Address item
                    { UpsertHourseRequest.zero with City := yc.City, Link := link, Price := p }
                    = (some err, rec)
                ∧ rec = { UpsertHourseRequest.zero with
                            City := yc.City, Link := link, Price := p })
            ∨ (∃ link p element text,
                yc.Link lib item = (link, none) ∧ yc.Price price item = (p, none)
                ∧ item.QuerySelector yc.Selectors.Address.Build = .ok (some element)
                ∧ element.TextContent = .ok text
                ∧ yc.Address item
                    { UpsertHourseRequest.zero with City := yc.City, Link := link, Price := p }
                    = (none, rec)
                ∧ rec = { UpsertHourseRequest.zero with
                            City := yc.City, Link := link, Price := p
                            Section := ⟨sectionScan (stringsReplaceOnce text yc.City).data⟩
                            Address := stringsReplaceOnce (stringsReplaceOnce text yc.City)
                              ⟨sectionScan (stringsReplaceOnce text yc.City).data⟩ }
                ∧ ((∃ e, item.QuerySelector yc.Selectors.Detail.Build = .error e
                      ∧ err = .external e)
                  ∨ (∃ detailElement e,
                      item.QuerySelector yc.Selectors.Detail.Build = .ok (some detailElement)
                      ∧ detailElement.QuerySelectorAll "li" = .error e ∧ err = .external e)
                  ∨ (∃ detailElement detail,
                      item.QuerySelector yc.Selectors.Detail.Build = .ok (some detailElement)
                      ∧ detailElement.QuerySelectorAll "li" = .ok detail
                      ∧ detail.length ≠ 9 ∧ err = .errorsNew ""))) := by
      cases hl : yc.Link lib item with
      | mk link el =>
        cases el with
        | some e =>
          have hlink := Link_error_empty yc lib item link e hl
          subst hlink
          simp only [ParseYungChing.FetchItem, hl] at h
          obtain ⟨hrec, herr⟩ := Prod.mk.inj (GoResult.ret.inj h)
          have he : e = err := Option.some.inj herr
          subst he
          exact Or.inl ⟨rfl, hrec.symm⟩
        | none =>
          cases hp : yc.Price price item with
          | mk p ep =>
            cases ep with
            | some e =>
              simp only [ParseYungChing.FetchItem, hl, hp] at h
              obtain ⟨hrec, herr⟩ := Prod.mk.inj (GoResult.ret.inj h)
              have he : e = err := Option.some.inj herr
              subst he
              exact Or.inr (Or.inl ⟨link, p, rfl, rfl, hrec.symm⟩)
            | none =>
              cases ha : yc.Address item
                  { UpsertHourseRequest.zero with City := yc.City, Link := link, Price := p } with
              | mk ea res =>
                rcases Address_outcome yc item _ res ea ha with ⟨hne, hsame⟩ | ⟨hnone, hok⟩
                · cases ea with
                  | none => exact absurd rfl hne
                  | some e =>
                    have hrun : yc.FetchItem lib price (some item) = .ret (res, some e) := by
                      unfold ParseYungChing.FetchItem
                      simp only [hl, hp]
                      rw [ha]
                    rw [hrun] at h
                    obtain ⟨hrec, herr⟩ := Prod.mk.inj (GoResult.ret.inj h)
                    have he : e = err := Option.some.inj herr
                    subst he
                    subst hrec
                    exact Or.inr (Or.inr (Or.inl ⟨link, p, rfl, rfl, ha, hsame⟩))
                · subst hnone
                  obtain ⟨element, text, hq, ht, hres⟩ := hok
                  have hrun := FetchItem_at_detail yc lib price item link p res hl hp ha
                  rw [hrun] at h
                  refine Or.inr (Or.inr (Or.inr ?_))
                  cases hd : item.QuerySelector yc.Selectors.Detail.Build with
                  | error e =>
                    rw [hd] at h
                    obtain ⟨hrec, herr⟩ := Prod.mk.inj (GoResult.ret.inj h)
                    subst hrec
                    exact ⟨link, p, element, text, rfl, rfl, hq, ht, ha, hres,
                      Or.inl ⟨e, rfl, (Option.some.inj herr).symm⟩⟩
                  | ok found =>
                    cases found with
                    | none =>
                      rw [hd] at h
                      cases h
                    | some detailElement =>
                      rw [hd] at h
                      dsimp only at h
                      cases hall : detailElement.QuerySelectorAll "li" with
                      | error e =>
                        rw [hall] at h
                        obtain ⟨hrec, herr⟩ := Prod.mk.inj (GoResult.ret.inj h)
                        subst hrec
                        exact ⟨link, p, element, text, rfl, rfl, hq, ht, ha, hres,
                          Or.inr (Or.inl ⟨detailElement, e, rfl, hall,
                            (Option.some.inj herr).symm⟩)⟩
                      | ok detail =>
                        rw [hall] at h
                        dsimp only at h
                        by_cases hlen : detail.length = 9
                        · obtain ⟨rec2, hfill⟩ := @fillDetail_ret ε detail res hlen
                          rw [if_neg (by simpa using hlen), hfill] at h
                          cases h
                        · rw [if_pos hlen] at h
                          obtain ⟨hrec, herr⟩ := Prod.mk.inj (GoResult.ret.inj h)
                          subst hrec
                          exact ⟨link, p, element, text, rfl, rfl, hq, ht, ha, hres,
                            Or.inr (Or.inr ⟨detailElement, detail, rfl, hall, hlen,
                              (Option.some.inj herr).symm⟩)⟩
    refine ⟨by simp, ?_, item, rfl, hcases⟩
    rcases hcases with ⟨-, hr⟩ | ⟨link, p, -, -, hr⟩ | ⟨link, p, -, -, -, hr⟩
      | ⟨link, p, element, text, -, -, -, -, -, hr, -⟩ <;> rw [hr]

theorem FetchItem_error_record_witness :
    (NewParseYungChing "台北市").FetchItem sampleURL samplePrice
        (some (sampleItem (NewParseYungChing "台北市") none (some "台北市大安區仁愛路四段")
          (some ["公寓", "30年", "3樓", "", "20坪", "30坪", "3房", ""])))
      = .ret ({ UpsertHourseRequest.zero with
                  City := "台北市", Price := 1280, Section := "大安區", Address := "仁愛路四段" },
              some (.errorsNew ""))
    ∧ (some (sampleItem (NewParseYungChing "台北市") none (some "台北市大安區仁愛路四段")
          (some ["公寓", "30年", "3樓", "", "20坪", "30坪", "3房", ""])) ≠ none
      ∧ { UpsertHourseRequest.zero with
            City := "台北市", Price := 1280, Section := "大安區", Address := "仁愛路四段" }
        = { UpsertHourseRequest.zero with
            City := (NewParseYungChing "台北市").City, Link := "", Price := 1280,
            Section := "大安區", Address := "仁愛路四段" }) :=
  ⟨by decide,
    (FetchItem_error_record (NewParseYungChing "台北市") sampleURL samplePrice
      (some (sampleItem (NewParseYungChing "台北市") none (some "台北市大安區仁愛路四段")
        (some ["公寓", "30年", "3樓", "", "20坪", "30坪", "3房", ""])))
      { UpsertHourseRequest.zero with
          City := "台北市", Price := 1280, Section := "大安區", Address := "仁愛路四段" }
      (.errorsNew "") (by decide)).1,
    (FetchItem_error_record (NewParseYungChing "台北市") sampleURL samplePrice
      (some (sampleItem (NewParseYungChing "台北市") none (some "台北市大安區仁愛路四段")
        (some ["公寓", "30年", "3樓", "", "20坪", "30坪", "3房", ""])))
      { UpsertHourseRequest.zero with
          City := "台北市", Price := 1280, Section := "大安區", Address := "仁愛路四段" }
      (.errorsNew "") (by decide)).2.1⟩

/-- C10 at its failing input: when the detail-list selector yields no element
(and link, price and address are found), `FetchItem` calls a method on the nil
handle and panics; when the address selector yields no element it returns an
error, as the claim says. -/
theorem FetchItem_absent_detail_panics :
    (NewParseYungChing "台北市").FetchItem sampleURL samplePrice
        (some (sampleItem (NewParseYungChing "台北市") (some "/case/123")
          (some "台北市大安區仁愛路四段") none))
      = .panic .nilDereference
    ∧ (NewParseYungChing "台北市").FetchItem sampleURL samplePrice
        (some (sampleItem (NewParseYungChing "台北市") (some "/case/123") none
          (some ["公寓", "30年", "3樓", "", "20坪", "30坪", "3房", "", ""])))
      = .ret ({ UpsertHourseRequest.zero with
                  City := "台北市", Link := "https://buy.yungching.com.tw/case/123",
                  Price := 1280 }, some (.errorsNew "")) := by
  decide

/-! ## Properties: the detail fields of a successful extraction -/

theorem length_nine {α : Type} (l : List α) (h : l.length = 9) :
    ∃ d0 d1 d2 d3 d4 d5 d6 d7 d8, l = [d0, d1, d2, d3, d4, d5, d6, d7, d8] := by
  match l, h with
  | [d0, d1, d2, d3, d4, d5, d6, d7, d8], _ => exact ⟨d0, d1, d2, d3, d4, d5, d6, d7, d8, rfl⟩

theorem UpdateField_some {ε : Type} (detail : List (ElementHandle ε)) (idx : Nat)
    (el : ElementHandle ε) (old : String) (h : detail.get? idx = some el) :
    ∃ e, ParseYungChing.UpdateField detail idx old = .ret (fieldAfter el old, e) := by
  unfold ParseYungChing.UpdateField fieldAfter
  rw [h]
  dsimp only
  cases el.TextContent with
  | error err => exact ⟨_, rfl⟩
  | ok text => exact ⟨_, rfl⟩

theorem appendNote_some {ε : Type} (detail : List (ElementHandle ε)) (num : Nat)
    (el : ElementHandle ε) (others : List String) (h : detail.get? num = some el) :
    ParseYungChing.appendNote detail others num = .ret (others ++ (noteOf el).toList) := by
  unfold ParseYungChing.appendNote noteOf
  rw [h]
  dsimp only
  cases el.TextContent with
  | error err => simp
  | ok text =>
    by_cases hb : stringsTrimSpace text = ""
    · simp [hb]
    · simp [hb]

theorem lastFloor_eq (floor : String) :
    ParseYungChing.lastFloor floor = .ret (lastSegment floor) := by
  obtain ⟨seg, hseg⟩ := lastFloor_ret floor
  unfold ParseYungChing.lastFloor at hseg ⊢
  unfold lastSegment
  cases hl : (stringsSplit floor '~').getLast? with
  | none => rw [hl] at hseg; cases hseg
  | some s => rfl

theorem fillDetail_nine {ε : Type} (d0 d1 d2 d3 d4 d5 d6 d7 d8 : ElementHandle ε)
    (res : UpsertHourseRequest) :
    ParseYungChing.fillDetail [d0, d1, d2, d3, d4, d5, d6, d7, d8] res =
      .ret ({ res with
                Shape := fieldAfter d0 res.Shape
                Age := fieldAfter d1 res.Age
                Floor := lastSegment (fieldAfter d2 res.Floor)
                Mainarea := fieldAfter d4 res.Mainarea
                Area := fieldAfter d5 res.Area
                Layout := fieldAfter d6 res.Layout
                Others := res.Others ++ [d3, d7, d8].filterMap noteOf }, none) := by
  obtain ⟨e0, h0⟩ := UpdateField_some [d0, d1, d2, d3, d4, d5, d6, d7, d8] 0 d0 res.Shape rfl
  obtain ⟨e1, h1⟩ := UpdateField_some [d0, d1, d2, d3, d4, d5, d6, d7, d8] 1 d1 res.Age rfl
  obtain ⟨e2, h2⟩ := UpdateField_some [d0, d1, d2, d3, d4, d5, d6, d7, d8] 2 d2 res.Floor rfl
  obtain ⟨e4, h4⟩ := UpdateField_some [d0, d1, d2, d3, d4, d5, d6, d7, d8] 4 d4 res.Mainarea rfl
  obtain ⟨e5, h5⟩ := UpdateField_some [d0, d1, d2, d3, d4, d5, d6, d7, d8] 5 d5 res.Area rfl
  obtain ⟨e6, h6⟩ := UpdateField_some [d0, d1, d2, d3, d4, d5, d6, d7, d8] 6 d6 res.Layout rfl
  have h3 := fun o => appendNote_some [d0, d1, d2, d3, d4, d5, d6, d7, d8] 3 d3 o rfl
  have h7 := fun o => appendNote_some [d0, d1, d2, d3, d4, d5, d6, d7, d8] 7 d7 o rfl
  have h8 := fun o => appendNote_some [d0, d1, d2, d3, d4, d5, d6, d7, d8] 8 d8 o rfl
  simp only [ParseYungChing.fillDetail, h0, h1, h2, h4, h5, h6, List.foldlM, h3, h7, h8,
    lastFloor_eq, GoResult.ret_bind, GoResult.pure_eq]
  congr 2
  cases hn3 : noteOf d3 <;> cases hn7 : noteOf d7 <;> cases hn8 : noteOf d8 <;>
    simp [List.filterMap, hn3, hn7, hn8]

theorem FetchItem_success_inv {ε : Type} (yc : ParseYungChing) (lib : NetURL ε)
    (price : PriceFn ε) (item : ElementHandle ε) (rec : UpsertHourseRequest)
    (h : yc.FetchItem lib price (some item) = .ret (rec, none)) :
    ∃ link p res detailElement detail,
      yc.Link lib item = (link, none) ∧ yc.Price price item = (p, none)
      ∧ yc.Address item
          { UpsertHourseRequest.zero with City := yc.City, Link := link, Price := p }
          = (none, res)
      ∧ item.QuerySelector yc.Selectors.Detail.Build = .ok (some detailElement)
      ∧ detailElement.QuerySelectorAll "li" = .ok detail
      ∧ detail.length = 9
      ∧ ParseYungChing.fillDetail detail res = .ret (rec, none) := by
  cases hl : yc.Link lib item with
  | mk link el =>
    cases el with
    | some e =>
      simp only [ParseYungChing.FetchItem, hl] at h
      cases h
    | none =>
      cases hp : yc.Price price item with
      | mk p ep =>
        cases ep with
        | some e =>
          simp only [ParseYungChing.FetchItem, hl, hp] at h
          cases h
        | none =>
          cases ha : yc.Address item
              { UpsertHourseRequest.zero with City := yc.City, Link := link, Price := p } with
          | mk ea res =>
            cases ea with
            | some e =>
              have hrun : yc.FetchItem lib price (some item) = .ret (res, some e) := by
                unfold ParseYungChing.FetchItem
                simp only [hl, hp]
                rw [ha]
              rw [hrun] at h
              cases h
            | none =>
              have hrun := FetchItem_at_detail yc lib price item link p res hl hp ha
              rw [hrun] at h
              cases hd : item.QuerySelector yc.Selectors.Detail.Build with
              | error e =>
                rw [hd] at h
                cases h
              | ok found =>
                cases found with
                | none =>
                  rw [hd] at h
                  cases h
                | some detailElement =>
                  rw [hd] at h
                  dsimp only at h
                  cases hall : detailElement.QuerySelectorAll "li" with
                  | error e =>
                    rw [hall] at h
                    cases h
                  | ok detail =>
                    rw [hall] at h
                    dsimp only at h
                    by_cases hlen : detail.length = 9
                    · rw [if_neg (by simpa using hlen)] at h
                      exact ⟨link, p, res, detailElement, detail, rfl, rfl, ha, rfl, hall,
                        hlen, h⟩
                    · rw [if_pos hlen] at h
                      cases h

theorem splitRunes_mem_of_mem (sep : Char) (s : List Char) :
    ∀ seg ∈ splitRunes sep s, ∀ c ∈ seg, c ∈ s ∧ c ≠ sep := by
  induction s with
  | nil =>
    intro seg hseg c hc
    simp only [splitRunes, List.mem_singleton] at hseg
    rw [hseg] at hc
    exact absurd hc (List.not_mem_nil c)
  | cons d s ih =>
    intro seg hseg c hc
    unfold splitRunes at hseg
    split_ifs at hseg with hd
    · rcases List.mem_cons.mp hseg with heq | hmem
      · rw [heq] at hc
        exact absurd hc (List.not_mem_nil c)
      · obtain ⟨h1, h2⟩ := ih seg hmem c hc
        exact ⟨List.mem_cons_of_mem _ h1, h2⟩
    · cases hsp : splitRunes sep s with
      | nil => exact absurd hsp (splitRunes_ne_nil sep s)
      | cons first segs =>
        rw [hsp] at hseg ih
        rcases List.mem_cons.mp hseg with heq | hmem
        · rw [heq] at hc
          rcases List.mem_cons.mp hc with hcd | hcf
          · rw [hcd]
            exact ⟨List.mem_cons_self _ _, hd⟩
          · obtain ⟨h1, h2⟩ := ih first (List.mem_cons_self _ _) c hcf
            exact ⟨List.mem_cons_of_mem _ h1, h2⟩
        · obtain ⟨h1, h2⟩ := ih seg (List.mem_cons_of_mem _ hmem) c hc
          exact ⟨List.mem_cons_of_mem _ h1, h2⟩

theorem splitRunes_no_sep (sep : Char) (s : List Char) (h : sep ∉ s) :
    splitRunes sep s = [s] := by
  induction s with
  | nil => rfl
  | cons d s ih =>
    have hd : d ≠ sep := fun heq => h (heq ▸ List.mem_cons_self _ _)
    have hs : sep ∉ s := fun hmem => h (List.mem_cons_of_mem _ hmem)
    simp [splitRunes, hd, ih hs]

theorem lastSegment_getLast (s : String) :
    (stringsSplit s '~').getLast? = some (lastSegment s) := by
  unfold lastSegment
  cases hl : (stringsSplit s '~').getLast? with
  | none =>
    exfalso
    rw [List.getLast?_eq_none_iff] at hl
    unfold stringsSplit at hl
    exact splitRunes_ne_nil '~' s.data (List.map_eq_nil_iff.mp hl)
  | some seg => rfl

theorem lastSegment_mem (s : String) :
    ∀ c ∈ (lastSegment s).data, c ∈ s.data ∧ c ≠ '~' := by
  intro c hc
  have hlast := lastSegment_getLast s
  have hmem : lastSegment s ∈ stringsSplit s '~' := List.mem_of_getLast?_eq_some hlast
  unfold stringsSplit at hmem
  obtain ⟨seg, hseg, heq⟩ := List.mem_map.mp hmem
  rw [← heq] at hc
  exact splitRunes_mem_of_mem '~' s.data seg hseg c hc

theorem lastSegment_no_tilde (s : String) (h : '~' ∉ s.data) : lastSegment s = s := by
  unfold lastSegment stringsSplit
  rw [splitRunes_no_sep '~' s.data h]
  rfl

theorem stringsRemoveSpaces_no_space (s : String) : ' ' ∉ (stringsRemoveSpaces s).data := by
  unfold stringsRemoveSpaces
  intro h
  have := (List.mem_filter.mp h).2
  simp at this

theorem fieldAfter_no_space {ε : Type} (el : ElementHandle ε) :
    ' ' ∉ (fieldAfter el "").data := by
  unfold fieldAfter
  cases el.TextContent with
  | error e => simp
  | ok text => exact stringsRemoveSpaces_no_space _

theorem FetchItem_success_record {ε : Type} (yc : ParseYungChing) (lib : NetURL ε)
    (price : PriceFn ε) (item : ElementHandle ε) (rec : UpsertHourseRequest)
    (h : yc.FetchItem lib price (some item) = .ret (rec, none)) :
    ∃ link p res detailElement d0 d1 d2 d3 d4 d5 d6 d7 d8,
      yc.Link lib item = (link, none) ∧ yc.Price price item = (p, none)
      ∧ yc.Address item
          { UpsertHourseRequest.zero with City := yc.City, Link := link, Price := p }
          = (none, res)
      ∧ item.QuerySelector yc.Selectors.Detail.Build = .ok (some detailElement)
      ∧ detailElement.QuerySelectorAll "li" = .ok [d0, d1, d2, d3, d4, d5, d6, d7, d8]
      ∧ rec = { City := yc.City, Section := res.Section, Address := res.Address, Link := link,
                Price := p, Shape := fieldAfter d0 "", Age := fieldAfter d1 "",
                Floor := lastSegment (fieldAfter d2 ""), Mainarea := fieldAfter d4 "",
                Area := fieldAfter d5 "", Layout := fieldAfter d6 "",
                Others := [d3, d7, d8].filterMap noteOf } := by
  obtain ⟨link, p, res, de, detail, hl, hp, ha, hd, hall, hlen, hfill⟩ :=
    FetchItem_success_inv yc lib price item rec h
  obtain ⟨d0, d1, d2, d3, d4, d5, d6, d7, d8, hdet⟩ := length_nine detail hlen
  subst hdet
  rw [fillDetail_nine] at hfill
  have hrec := (Prod.mk.inj (GoResult.ret.inj hfill)).1
  have hkeep := Address_keeps_fields yc item _ res none ha
  obtain ⟨k1, k2, k3, k4, k5, k6, k7, k8, k9, k10⟩ := hkeep
  simp only [UpsertHourseRequest.zero] at k1 k2 k3 k4 k5 k6 k7 k8 k9 k10
  refine ⟨link, p, res, de, d0, d1, d2, d3, d4, d5, d6, d7, d8, hl, hp, ha, hd, hall, ?_⟩
  rw [← hrec, k4, k5, k6, k7, k8, k9, k10, ← k1, ← k2, ← k3]
  simp

/-- C13: when the link selector yields no element and the query does not fail,
`Link` returns the empty string with no error; and `FetchItem`, on an item that
is otherwise well formed (price and address are read, the detail list has nine
children), succeeds with an empty `Link` field. -/
theorem Link_absent {ε : Type} (yc : ParseYungChing) (lib : NetURL ε)
    (item : ElementHandle ε)
    (hq : item.QuerySelector yc.Selectors.Link.Build = .ok none) :
    yc.Link lib item = ("", none)
      ∧ ∀ (price : PriceFn ε) (p : Int) (res : UpsertHourseRequest)
          (detailElement : ElementHandle ε) (detail : List (ElementHandle ε)),
          yc.Price price item = (p, none) →
          yc.Address item
            { UpsertHourseRequest.zero with City := yc.City, Link := "", Price := p }
            = (none, res) →
          item.QuerySelector yc.Selectors.Detail.Build = .ok (some detailElement) →
          detailElement.QuerySelectorAll "li" = .ok detail →
          detail.length = 9 →
          ∃ rec, yc.FetchItem lib price (some item) = .ret (rec, none) ∧ rec.Link = "" := by
  have hl : yc.Link lib item = ("", none) := by
    simp only [ParseYungChing.Link, hq]
  refine ⟨hl, ?_⟩
  intro price p res detailElement detail hp ha hd hall hlen
  have hrun := FetchItem_at_detail yc lib price item "" p res hl hp ha
  rw [hd] at hrun
  dsimp only at hrun
  rw [hall] at hrun
  dsimp only at hrun
  rw [if_neg (by simpa using hlen)] at hrun
  obtain ⟨d0, d1, d2, d3, d4, d5, d6, d7, d8, hdet⟩ := length_nine detail hlen
  subst hdet
  rw [fillDetail_nine] at hrun
  refine ⟨_, hrun, ?_⟩
  exact (Address_keeps_fields yc item _ res none ha).2.1

theorem Link_absent_witness :
    (NewParseYungChing "台北市").FetchItem sampleURL samplePrice
        (some (sampleItem (NewParseYungChing "台北市") none (some "台北市大安區仁愛路四段")
          (some ["公寓", "30年", "3~5樓", "", "20坪", "30坪", "3房", "note-a", "  "])))
      = .ret ({ City := "台北市", Section := "大安區", Address := "仁愛路四段", Link := "",
                Price := 1280, Shape := "公寓", Age := "30年", Floor := "5樓",
                Mainarea := "20坪", Area := "30坪", Layout := "3房", Others := ["note-a"] }, none)
    ∧ (NewParseYungChing "台北市").Link sampleURL
        (sampleItem (NewParseYungChing "台北市") none (some "台北市大安區仁愛路四段")
          (some ["公寓", "30年", "3~5樓", "", "20坪", "30坪", "3房", "note-a", "  "]))
      = ("", none) :=
  ⟨by decide,
    (Link_absent (NewParseYungChing "台北市") sampleURL
      (sampleItem (NewParseYungChing "台北市") none (some "台北市大安區仁愛路四段")
        (some ["公寓", "30年", "3~5樓", "", "20坪", "30坪", "3房", "note-a", "  "])) rfl).1⟩

/-- C14: for every successful `FetchItem` the `Floor` field contains no `~`;
when the text of detail position 2 is readable, `Floor` is the last segment of
the split on `~` of that text after normalisation (trimmed, spaces removed),
hence the whole normalised text when it has no `~`; "3~5" gives "5" and "10"
gives "10". -/
theorem Floor_last_segment {ε : Type} (yc : ParseYungChing) (lib : NetURL ε)
    (price : PriceFn ε) (item : ElementHandle ε) (rec : UpsertHourseRequest)
    (h : yc.FetchItem lib price (some item) = .ret (rec, none)) :
    '~' ∉ rec.Floor.data
      ∧ ∃ detailElement detail d2,
          item.QuerySelector yc.Selectors.Detail.Build = .ok (some detailElement)
          ∧ detailElement.QuerySelectorAll "li" = .ok detail
          ∧ detail.length = 9
          ∧ detail.get? 2 = some d2
          ∧ ∀ text, d2.TextContent = .ok text →
              (stringsSplit (stringsRemoveSpaces (stringsTrimSpace text)) '~').getLast?
                  = some rec.Floor
              ∧ ('~' ∉ (stringsRemoveSpaces (stringsTrimSpace text)).data →
                  rec.Floor = stringsRemoveSpaces (stringsTrimSpace text))
              ∧ (stringsRemoveSpaces (stringsTrimSpace text) = "3~5" → rec.Floor = "5")
              ∧ (stringsRemoveSpaces (stringsTrimSpace text) = "10" → rec.Floor = "10") := by
  obtain ⟨link, p, res, de, d0, d1, d2, d3, d4, d5, d6, d7, d8, hl, hp, ha, hd, hall, hrec⟩ :=
    FetchItem_success_record yc lib price item rec h
  have hfloor : rec.Floor = lastSegment (fieldAfter d2 "") := by rw [hrec]
  refine ⟨?_, de, _, d2, hd, hall, rfl, rfl, ?_⟩
  · intro hmem
    rw [hfloor] at hmem
    exact (lastSegment_mem _ '~' hmem).2 rfl
  · intro text ht
    have hfa : fieldAfter d2 "" = stringsRemoveSpaces (stringsTrimSpace text) := by
      simp only [fieldAfter, ht]
    rw [hfloor, hfa]
    refine ⟨lastSegment_getLast _, fun hno => lastSegment_no_tilde _ hno, ?_, ?_⟩
    · intro h35
      rw [h35]
      decide
    · intro h10
      rw [h10]
      decide

theorem Floor_last_segment_witness :
    (NewParseYungChing "台北市").FetchItem sampleURL samplePrice
        (some (sampleItem (NewParseYungChing "台北市") none (some "台北市大安區仁愛路四段")
          (some ["公寓", "30年", " 3 ~ 5 ", "", "20坪", "30坪", "3房", "note-a", "  "])))
      = .ret ({ City := "台北市", Section := "大安區", Address := "仁愛路四段", Link := "",
                Price := 1280, Shape := "公寓", Age := "30年", Floor := "5",
                Mainarea := "20坪", Area := "30坪", Layout := "3房", Others := ["note-a"] }, none)
    ∧ '~' ∉ "5".data :=
  ⟨by decide,
    (Floor_last_segment (NewParseYungChing "台北市") sampleURL samplePrice
      (sampleItem (NewParseYungChing "台北市") none (some "台北市大安區仁愛路四段")
        (some ["公寓", "30年", " 3 ~ 5 ", "", "20坪", "30坪", "3房", "note-a", "  "]))
      { City := "台北市", Section := "大安區", Address := "仁愛路四段", Link := "",
        Price := 1280, Shape := "公寓", Age := "30年", Floor := "5",
        Mainarea := "20坪", Area := "30坪", Layout := "3房", Others := ["note-a"] }
      (by decide)).1⟩

/-- C15: for every successful `FetchItem` the notes list `Others` is made of
the detail positions 3, 7 and 8, in that order: each readable text is trimmed
and kept when it is not blank.  When the three texts are readable, `Others` is
the list of their trimmed values without the blank ones; the texts "", "note-a"
and "  " give the single note "note-a". -/
theorem Others_trimmed_notes {ε : Type} (yc : ParseYungChing) (lib : NetURL ε)
    (price : PriceFn ε) (item : ElementHandle ε) (rec : UpsertHourseRequest)
    (h : yc.FetchItem lib price (some item) = .ret (rec, none)) :
    ∃ detailElement detail d3 d7 d8,
      item.QuerySelector yc.Selectors.Detail.Build = .ok (some detailElement)
      ∧ detailElement.QuerySelectorAll "li" = .ok detail
      ∧ detail.length = 9
      ∧ detail.get? 3 = some d3 ∧ detail.get? 7 = some d7 ∧ detail.get? 8 = some d8
      ∧ rec.Others = [d3, d7, d8].filterMap noteOf
      ∧ ∀ t3 t7 t8, d3.TextContent = .ok t3 → d7.TextContent = .ok t7 →
          d8.TextContent = .ok t8 →
          rec.Others = ([t3, t7, t8].map stringsTrimSpace).filter (fun s => s ≠ "")
          ∧ (t3 = "" → t7 = "note-a" → t8 = "  " → rec.Others = ["note-a"]) := by
  obtain ⟨link, p, res, de, d0, d1, d2, d3, d4, d5, d6, d7, d8, hl, hp, ha, hd, hall, hrec⟩ :=
    FetchItem_success_record yc lib price item rec h
  have hothers : rec.Others = [d3, d7, d8].filterMap noteOf := by rw [hrec]
  refine ⟨de, _, d3, d7, d8, hd, hall, rfl, rfl, rfl, rfl, hothers, ?_⟩
  intro t3 t7 t8 h3 h7 h8
  have hgen : rec.Others = ([t3, t7, t8].map stringsTrimSpace).filter (fun s => s ≠ "") := by
    rw [hothers]
    by_cases b3 : stringsTrimSpace t3 = "" <;> by_cases b7 : stringsTrimSpace t7 = "" <;>
      by_cases b8 : stringsTrimSpace t8 = "" <;>
      simp [List.filterMap, List.filter, noteOf, h3, h7, h8, b3, b7, b8]
  refine ⟨hgen, ?_⟩
  intro e3 e7 e8
  rw [hgen, e3, e7, e8]
  decide

theorem Others_trimmed_notes_witness :
    (NewParseYungChing "台北市").FetchItem sampleURL samplePrice
        (some (sampleItem (NewParseYungChing "台北市") none (some "台北市大安區仁愛路四段")
          (some ["公寓", "30年", "10", "", "20坪", "30坪", "3房", "note-a", "  "])))
      = .ret ({ City := "台北市", Section := "大安區", Address := "仁愛路四段", Link := "",
                Price := 1280, Shape := "公寓", Age := "30年", Floor := "10",
                Mainarea := "20坪", Area := "30坪", Layout := "3房", Others := ["note-a"] }, none)
    ∧ ∃ detailElement detail d3 d7 d8,
      (sampleItem (NewParseYungChing "台北市") none (some "台北市大安區仁愛路四段")
          (some ["公寓", "30年", "10", "", "20坪", "30坪", "3房", "note-a", "  "])).QuerySelector
        (NewParseYungChing "台北市").Selectors.Detail.Build = .ok (some detailElement)
      ∧ detailElement.QuerySelectorAll "li" = .ok detail
      ∧ detail.length = 9
      ∧ detail.get? 3 = some d3 ∧ detail.get? 7 = some d7 ∧ detail.get? 8 = some d8
      ∧ ["note-a"] = [d3, d7, d8].filterMap noteOf
      ∧ ∀ t3 t7 t8, d3.TextContent = .ok t3 → d7.TextContent = .ok t7 →
          d8.TextContent = .ok t8 →
          ["note-a"] = ([t3, t7, t8].map stringsTrimSpace).filter (fun s => s ≠ "")
          ∧ (t3 = "" → t7 = "note-a" → t8 = "  " → ["note-a"] = ["note-a"]) :=
  ⟨by decide,
    Others_trimmed_notes (NewParseYungChing "台北市") sampleURL samplePrice
      (sampleItem (NewParseYungChing "台北市") none (some "台北市大安區仁愛路四段")
        (some ["公寓", "30年", "10", "", "20坪", "30坪", "3房", "note-a", "  "]))
      { City := "台北市", Section := "大安區", Address := "仁愛路四段", Link := "",
        Price := 1280, Shape := "公寓", Age := "30年", Floor := "10",
        Mainarea := "20坪", Area := "30坪", Layout := "3房", Others := ["note-a"] }
      (by decide)⟩

theorem whiteSpaceRunes_isSpace : ∀ c ∈ whiteSpaceRunes, unicodeIsSpace c = true := by
  decide

theorem unicodeIsSpace_iff (c : Char) : unicodeIsSpace c = true ↔ c ∈ whiteSpaceRunes := by
  constructor
  · intro h
    have hc : c = Char.ofNat c.toNat := (Char.ofNat_toNat c).symm
    simp only [unicodeIsSpace, Bool.or_eq_true, Bool.and_eq_true, decide_eq_true_eq,
      beq_iff_eq] at h
    have hn : c.toNat ∈ [0x09, 0x0A, 0x0B, 0x0C, 0x0D, 0x20, 0x85, 0xA0, 0x1680,
        0x2000, 0x2001, 0x2002, 0x2003, 0x2004, 0x2005, 0x2006, 0x2007, 0x2008, 0x2009,
        0x200A, 0x2028, 0x2029, 0x202F, 0x205F, 0x3000] := by
      simp only [List.mem_cons, List.mem_singleton, List.not_mem_nil, or_false]
      omega
    rw [hc]
    exact List.mem_map_of_mem Char.ofNat hn
  · exact whiteSpaceRunes_isSpace c

theorem stringsTrimSpace_isTrimmed (s : String) : IsTrimmed s.data (stringsTrimSpace s).data := by
  have h1 := List.takeWhile_append_dropWhile unicodeIsSpace s.data
  have h2 := List.takeWhile_append_dropWhile unicodeIsSpace
    (s.data.dropWhile unicodeIsSpace).reverse
  have hmid : s.data.dropWhile unicodeIsSpace
      = ((s.data.dropWhile unicodeIsSpace).reverse.dropWhile unicodeIsSpace).reverse
        ++ ((s.data.dropWhile unicodeIsSpace).reverse.takeWhile unicodeIsSpace).reverse := by
    rw [← List.reverse_append, h2, List.reverse_reverse]
  refine ⟨s.data.takeWhile unicodeIsSpace,
    ((s.data.dropWhile unicodeIsSpace).reverse.takeWhile unicodeIsSpace).reverse, ?_, ?_, ?_,
    ?_, ?_⟩
  · show s.data = _ ++ ((s.data.dropWhile unicodeIsSpace).reverse.dropWhile
        unicodeIsSpace).reverse ++ _
    rw [List.append_assoc, ← hmid, h1]
  · intro c hc
    exact (unicodeIsSpace_iff c).mp (List.mem_takeWhile_imp hc)
  · intro c hc
    exact (unicodeIsSpace_iff c).mp (List.mem_takeWhile_imp (List.mem_reverse.mp hc))
  · intro c hc hws
    show False
    have hcore : (stringsTrimSpace s).data
        = ((s.data.dropWhile unicodeIsSpace).reverse.dropWhile unicodeIsSpace).reverse := rfl
    rw [hcore] at hc
    have hhead : (s.data.dropWhile unicodeIsSpace).head? = some c := by
      rw [hmid, List.head?_append, hc]
      rfl
    have hnot := List.head?_dropWhile_not unicodeIsSpace s.data
    rw [hhead] at hnot
    have hfalse : unicodeIsSpace c = false := hnot
    rw [(unicodeIsSpace_iff c).mpr hws] at hfalse
    cases hfalse
  · intro c hc hws
    have hcore : (stringsTrimSpace s).data
        = ((s.data.dropWhile unicodeIsSpace).reverse.dropWhile unicodeIsSpace).reverse := rfl
    rw [hcore, List.getLast?_reverse] at hc
    have hnot := List.head?_dropWhile_not unicodeIsSpace
      (s.data.dropWhile unicodeIsSpace).reverse
    rw [hc] at hnot
    have hfalse : unicodeIsSpace c = false := hnot
    rw [(unicodeIsSpace_iff c).mpr hws] at hfalse
    cases hfalse

theorem normalised_field (text : String) :
    IsNormalisedField text (stringsRemoveSpaces (stringsTrimSpace text)) := by
  refine ⟨(stringsTrimSpace text).data, stringsTrimSpace_isTrimmed text, ?_⟩
  show (stringsTrimSpace text).data.filter (fun c => c != ' ') = _
  apply List.filter_congr
  intro c _
  have hsp : Char.ofNat 0x20 = ' ' := by decide
  rw [hsp]
  by_cases hc : c = ' ' <;> simp [hc]

theorem splitRunes_join (sep : Char) (s : List Char) :
    ∃ first rest, splitRunes sep s = first :: rest
      ∧ s = first ++ (rest.map (fun seg => sep :: seg)).flatten := by
  induction s with
  | nil => exact ⟨[], [], rfl, rfl⟩
  | cons c s ih =>
    obtain ⟨first, rest, hsp, hs⟩ := ih
    by_cases hc : c = sep
    · refine ⟨[], first :: rest, by simp [splitRunes, hc, hsp], ?_⟩
      simp only [List.map_cons, List.flatten_cons, List.nil_append, List.cons_append]
      rw [hc, ← hs]
    · refine ⟨c :: first, rest, by simp [splitRunes, hc, hsp], ?_⟩
      rw [List.cons_append, ← hs]

theorem lastSegment_isLast (text : String) : IsLastSegment text (lastSegment text) := by
  refine ⟨fun hm => (lastSegment_mem text '~' hm).2 rfl, ?_⟩
  obtain ⟨first, rest, hsp, hs⟩ := splitRunes_join '~' text.data
  have hlast := lastSegment_getLast text
  unfold stringsSplit at hlast
  rw [hsp] at hlast
  rcases List.eq_nil_or_concat rest with hnil | ⟨init, last, hrest⟩
  · subst hnil
    simp only [List.map_cons, List.map_nil, List.getLast?_singleton, Option.some.injEq] at hlast
    refine ⟨[], ?_, Or.inl rfl⟩
    rw [← hlast]
    simpa using hs
  · rw [List.concat_eq_append] at hrest
    subst hrest
    have hl : lastSegment text = ⟨last⟩ := by
      have hget : (List.map String.mk (first :: (init ++ [last]))).getLast? = some ⟨last⟩ := by
        rw [← List.cons_append, List.map_append]
        exact List.getLast?_concat _
      rw [hget] at hlast
      exact (Option.some.inj hlast).symm
    refine ⟨first ++ (init.map (fun seg => '~' :: seg)).flatten ++ ['~'], ?_, Or.inr ?_⟩
    · rw [hl, hs]
      simp
    · simp

/-- C16: for every successful `FetchItem`, when the texts of detail positions
0, 1, 2, 4, 5 and 6 are readable, `Shape`, `Age`, `Mainarea`, `Area` and
`Layout` are the texts of positions 0, 1, 4, 5 and 6 with the surrounding
white space trimmed and every space character removed, and `Floor` is the last
tilde segment of the text of position 2 treated the same way; none of these six
fields contains a space character. -/
theorem fields_normalised {ε : Type} (yc : ParseYungChing) (lib : NetURL ε)
    (price : PriceFn ε) (item : ElementHandle ε) (rec : UpsertHourseRequest)
    (h : yc.FetchItem lib price (some item) = .ret (rec, none)) :
    (' ' ∉ rec.Shape.data ∧ ' ' ∉ rec.Age.data ∧ ' ' ∉ rec.Floor.data
        ∧ ' ' ∉ rec.Mainarea.data ∧ ' ' ∉ rec.Area.data ∧ ' ' ∉ rec.Layout.data)
      ∧ ∃ detailElement d0 d1 d2 d3 d4 d5 d6 d7 d8,
          item.QuerySelector yc.Selectors.Detail.Build = .ok (some detailElement)
          ∧ detailElement.QuerySelectorAll "li" = .ok [d0, d1, d2, d3, d4, d5, d6, d7, d8]
          ∧ ∀ t0 t1 t2 t4 t5 t6, d0.TextContent = .ok t0 → d1.TextContent = .ok t1 →
              d2.TextContent = .ok t2 → d4.TextContent = .ok t4 → d5.TextContent = .ok t5 →
              d6.TextContent = .ok t6 →
              (rec.Shape = stringsRemoveSpaces (stringsTrimSpace t0)
                ∧ rec.Age = stringsRemoveSpaces (stringsTrimSpace t1)
                ∧ rec.Floor = lastSegment (stringsRemoveSpaces (stringsTrimSpace t2))
                ∧ rec.Mainarea = stringsRemoveSpaces (stringsTrimSpace t4)
                ∧ rec.Area = stringsRemoveSpaces (stringsTrimSpace t5)
                ∧ rec.Layout = stringsRemoveSpaces (stringsTrimSpace t6))
              ∧ IsNormalisedField t0 rec.Shape ∧ IsNormalisedField t1 rec.Age
              ∧ IsNormalisedField t4 rec.Mainarea ∧ IsNormalisedField t5 rec.Area
              ∧ IsNormalisedField t6 rec.Layout
              ∧ ∃ floor, IsNormalisedField t2 floor ∧ IsLastSegment floor rec.Floor := by
  obtain ⟨link, p, res, de, d0, d1, d2, d3, d4, d5, d6, d7, d8, hl, hp, ha, hd, hall, hrec⟩ :=
    FetchItem_success_record yc lib price item rec h
  refine ⟨?_, de, d0, d1, d2, d3, d4, d5, d6, d7, d8, hd, hall, ?_⟩
  · rw [hrec]
    refine ⟨fieldAfter_no_space d0, fieldAfter_no_space d1, ?_, fieldAfter_no_space d4,
      fieldAfter_no_space d5, fieldAfter_no_space d6⟩
    intro hmem
    exact fieldAfter_no_space d2 (lastSegment_mem _ ' ' hmem).1
  · intro t0 t1 t2 t4 t5 t6 h0 h1 h2 h4 h5 h6
    have e0 : rec.Shape = stringsRemoveSpaces (stringsTrimSpace t0) := by
      rw [hrec]; simp [fieldAfter, h0]
    have e1 : rec.Age = stringsRemoveSpaces (stringsTrimSpace t1) := by
      rw [hrec]; simp [fieldAfter, h1]
    have e2 : rec.Floor = lastSegment (stringsRemoveSpaces (stringsTrimSpace t2)) := by
      rw [hrec]; simp [fieldAfter, h2]
    have e4 : rec.Mainarea = stringsRemoveSpaces (stringsTrimSpace t4) := by
      rw [hrec]; simp [fieldAfter, h4]
    have e5 : rec.Area = stringsRemoveSpaces (stringsTrimSpace t5) := by
      rw [hrec]; simp [fieldAfter, h5]
    have e6 : rec.Layout = stringsRemoveSpaces (stringsTrimSpace t6) := by
      rw [hrec]; simp [fieldAfter, h6]
    refine ⟨⟨e0, e1, e2, e4, e5, e6⟩, ?_, ?_, ?_, ?_, ?_,
      stringsRemoveSpaces (stringsTrimSpace t2), normalised_field t2, ?_⟩
    · rw [e0]; exact normalised_field t0
    · rw [e1]; exact normalised_field t1
    · rw [e4]; exact normalised_field t4
    · rw [e5]; exact normalised_field t5
    · rw [e6]; exact normalised_field t6
    · rw [e2]; exact lastSegment_isLast _

theorem fields_normalised_witness :
    (NewParseYungChing "台北市").FetchItem sampleURL samplePrice
        (some (sampleItem (NewParseYungChing "台北市") none (some "台北市大安區仁愛路四段")
          (some ["\n\t 公 寓　", " 30 年\r\n", " 1~3 樓\t", "", "\t主 20 坪",
                 " 30坪\n", " 3 房 2 廳  ", "", ""])))
      = .ret ({ City := "台北市", Section := "大安區", Address := "仁愛路四段", Link := "",
                Price := 1280, Shape := "公寓", Age := "30年", Floor := "3樓",
                Mainarea := "主20坪", Area := "30坪", Layout := "3房2廳", Others := [] }, none)
    ∧ (' ' ∉ "公寓".data ∧ ' ' ∉ "30年".data ∧ ' ' ∉ "3樓".data
        ∧ ' ' ∉ "主20坪".data ∧ ' ' ∉ "30坪".data ∧ ' ' ∉ "3房2廳".data) :=
  ⟨by decide,
    (fields_normalised (NewParseYungChing "台北市") sampleURL samplePrice
      (sampleItem (NewParseYungChing "台北市") none (some "台北市大安區仁愛路四段")
        (some ["\n\t 公 寓　", " 30 年\r\n", " 1~3 樓\t", "", "\t主 20 坪",
               " 30坪\n", " 3 房 2 廳  ", "", ""]))
      { City := "台北市", Section := "大安區", Address := "仁愛路四段", Link := "",
        Price := 1280, Shape := "公寓", Age := "30年", Floor := "3樓",
        Mainarea := "主20坪", Area := "30坪", Layout := "3房2廳", Others := [] }
      (by decide)).1⟩

/-! ## Properties: panics and errors of the extraction -/

theorem FetchItem_outcome {ε : Type} (yc : ParseYungChing) (lib : NetURL ε)
    (price : PriceFn ε) (item : Option (ElementHandle ε)) :
    (∃ r, yc.FetchItem lib price item = .ret r)
      ∨ yc.FetchItem lib price item = .panic .nilDereference := by
  cases item with
  | none => exact Or.inl ⟨_, rfl⟩
  | some item =>
    cases hl : yc.Link lib item with
    | mk link el =>
      cases el with
      | some e =>
        left
        simp only [ParseYungChing.FetchItem, hl]
        exact ⟨_, rfl⟩
      | none =>
        cases hp : yc.Price price item with
        | mk p ep =>
          cases ep with
          | some e =>
            left
            simp only [ParseYungChing.FetchItem, hl, hp]
            exact ⟨_, rfl⟩
          | none =>
            cases ha : yc.Address item
                { UpsertHourseRequest.zero with City := yc.City, Link := link, Price := p } with
            | mk ea res =>
              cases ea with
              | some e =>
                left
                refine ⟨(res, some e), ?_⟩
                unfold ParseYungChing.FetchItem
                simp only [hl, hp]
                rw [ha]
              | none =>
                rw [FetchItem_at_detail yc lib price item link p res hl hp ha]
                cases hd : item.QuerySelector yc.Selectors.Detail.Build with
                | error e => exact Or.inl ⟨_, rfl⟩
                | ok found =>
                  cases found with
                  | none => exact Or.inr rfl
                  | some detailElement =>
                    dsimp only
                    cases hall : detailElement.QuerySelectorAll "li" with
                    | error e => exact Or.inl ⟨_, rfl⟩
                    | ok detail =>
                      dsimp only
                      by_cases hlen : detail.length = 9
                      · obtain ⟨rec, hfill⟩ := @fillDetail_ret ε detail res hlen
                        rw [if_neg (by simpa using hlen), hfill]
                        exact Or.inl ⟨_, rfl⟩
                      · rw [if_pos hlen]
                        exact Or.inl ⟨_, rfl⟩

/-- C20: once the child count is nine, every positional access of `FetchItem`
(indices 0, 1, 2, 4, 5, 6 and 3, 7, 8) is within bounds, a split on `~` is never
empty, so its last element exists, and the rest of `FetchItem` returns without
panic; and `FetchItem` never raises an index-out-of-range panic, whatever the
item. -/
theorem no_index_out_of_range {ε : Type} (detail : List (ElementHandle ε))
    (res : UpsertHourseRequest) (hlen : detail.length = 9) :
    (∀ idx ∈ [0, 1, 2, 4, 5, 6, 3, 7, 8], ∃ el, detail.get? idx = some el)
      ∧ (∀ floor : String, stringsSplit floor '~' ≠ []
          ∧ ParseYungChing.lastFloor floor = .ret (lastSegment floor))
      ∧ (∃ rec, ParseYungChing.fillDetail detail res = .ret (rec, none))
      ∧ ∀ (yc : ParseYungChing) (lib : NetURL ε) (price : PriceFn ε)
          (item : Option (ElementHandle ε)),
          yc.FetchItem lib price item ≠ .panic .indexOutOfRange := by
  refine ⟨?_, ?_, fillDetail_ret detail res hlen, ?_⟩
  · intro idx hidx
    have hlt : idx < detail.length := by
      rw [hlen]
      simp only [List.mem_cons, List.mem_singleton, List.not_mem_nil, or_false] at hidx
      omega
    exact ⟨detail.get ⟨idx, hlt⟩, List.get?_eq_get hlt⟩
  · intro floor
    refine ⟨?_, lastFloor_eq floor⟩
    intro hnil
    unfold stringsSplit at hnil
    exact splitRunes_ne_nil '~' floor.data (List.map_eq_nil_iff.mp hnil)
  · intro yc lib price item hpanic
    rcases FetchItem_outcome yc lib price item with ⟨r, hr⟩ | hn
    · rw [hr] at hpanic
      cases hpanic
    · rw [hn] at hpanic
      cases hpanic

theorem no_index_out_of_range_witness :
    (List.replicate 9 (leafElement "3~5" "")).length = 9
    ∧ ∃ rec, ParseYungChing.fillDetail (List.replicate 9 (leafElement "3~5" ""))
        UpsertHourseRequest.zero = .ret (rec, none) :=
  ⟨by decide,
    (no_index_out_of_range (List.replicate 9 (leafElement "3~5" "")) UpsertHourseRequest.zero
      (by decide)).2.2.1⟩

/-- C17, as stated, fails: when the query for the address element fails with
"timeout", `Address` returns a fresh `errors.New("")`, not that error; and when
the texts of the nine detail children cannot be read, `FetchItem` returns no
error at all. -/
theorem collaborator_error_not_passed :
    (NewParseYungChing "台北市").Address (brokenElement "timeout") UpsertHourseRequest.zero
      = (some (.errorsNew ""), UpsertHourseRequest.zero)
    ∧ (GoError.errorsNew "" : GoError String) ≠ .external "timeout"
    ∧ (NewParseYungChing "台北市").FetchItem sampleURL samplePrice
        (some (unreadableDetailItem (NewParseYungChing "台北市") "台北市大安區仁愛路四段" "timeout"))
      = .ret ({ UpsertHourseRequest.zero with
                  City := "台北市", Price := 1280, Section := "大安區", Address := "仁愛路四段" },
              none) := by
  decide

/-- C17, amended: the errors of these collaborator calls are returned
unchanged: the row-count fetch in `SetTotalRow` (the state stays as it was);
the anchor query and the `href` read in `Link`; the text read in `Address`; and
in `FetchItem` every error of `Link`, of the price helper and of `Address`, and
the errors of the detail-list query and of the query for its children.  An
error of the address query is replaced in `Address` by a fresh
`errors.New("")`. -/
theorem collaborator_errors_passed {κ σ ε : Type} (yc : ParseYungChing) :
    (∀ (ctx : κ) (f : κ → String → σ → Except ε Int × σ) (w w1 : σ) (e : ε),
        yc.TotalPage = 0 → f ctx yc.Selectors.Total.Build w = (.error e, w1) →
        yc.SetTotalRow ctx f w = (.ret (some (.external e)), yc, w1))
      ∧ (∀ (lib : NetURL ε) (handle : ElementHandle ε) (e : ε),
        handle.QuerySelector yc.Selectors.Link.Build = .error e →
        yc.Link lib handle = ("", some (.external e)))
      ∧ (∀ (lib : NetURL ε) (handle element : ElementHandle ε) (e : ε),
        handle.QuerySelector yc.Selectors.Link.Build = .ok (some element) →
        element.GetAttribute "href" = .error e →
        yc.Link lib handle = ("", some (.external e)))
      ∧ (∀ (item element : ElementHandle ε) (req : UpsertHourseRequest) (e : ε),
        item.QuerySelector yc.Selectors.Address.Build = .ok (some element) →
        element.TextContent = .error e →
        yc.Address item req = (some (.external e), req))
      ∧ (∀ (item : ElementHandle ε) (req : UpsertHourseRequest) (e : ε),
        item.QuerySelector yc.Selectors.Address.Build = .error e →
        yc.Address item req = (some (.errorsNew ""), req))
      ∧ (∀ (lib : NetURL ε) (price : PriceFn ε) (item : ElementHandle ε) (link : String)
          (err : GoError ε),
        yc.Link lib item = (link, some err) →
        ∃ rec, yc.FetchItem lib price (some item) = .ret (rec, some err))
      ∧ (∀ (lib : NetURL ε) (price : PriceFn ε) (item : ElementHandle ε) (link : String)
          (p : Int) (err : GoError ε),
        yc.Link lib item = (link, none) → yc.Price price item = (p, some err) →
        ∃ rec, yc.FetchItem lib price (some item) = .ret (rec, some err))
      ∧ (∀ (lib : NetURL ε) (price : PriceFn ε) (item : ElementHandle ε) (link : String)
          (p : Int) (res : UpsertHourseRequest) (err : GoError ε),
        yc.Link lib item = (link, none) → yc.Price price item = (p, none) →
        yc.Address item
          { UpsertHourseRequest.zero with City := yc.City, Link := link, Price := p }
          = (some err, res) →
        ∃ rec, yc.FetchItem lib price (some item) = .ret (rec, some err))
      ∧ (∀ (lib : NetURL ε) (price : PriceFn ε) (item : ElementHandle ε) (link : String)
          (p : Int) (res : UpsertHourseRequest) (e : ε),
        yc.Link lib item = (link, none) → yc.Price price item = (p, none) →
        yc.Address item
          { UpsertHourseRequest.zero with City := yc.City, Link := link, Price := p }
          = (none, res) →
        item.QuerySelector yc.Selectors.Detail.Build = .error e →
        yc.FetchItem lib price (some item) = .ret (res, some (.external e)))
      ∧ (∀ (lib : NetURL ε) (price : PriceFn ε) (item detailElement : ElementHandle ε)
          (link : String) (p : Int) (res : UpsertHourseRequest) (e : ε),
        yc.Link lib item = (link, none) → yc.Price price item = (p, none) →
        yc.Address item
          { UpsertHourseRequest.zero with City := yc.City, Link := link, Price := p }
          = (none, res) →
        item.QuerySelector yc.Selectors.Detail.Build = .ok (some detailElement) →
        detailElement.QuerySelectorAll "li" = .error e →
        yc.FetchItem lib price (some item) = .ret (res, some (.external e))) := by
  refine ⟨?_, ?_, ?_, ?_, ?_, ?_, ?_, ?_, ?_, ?_⟩
  · intro ctx f w w1 e hT hf
    simp [ParseYungChing.SetTotalRow, hT, hf]
  · intro lib handle e hq
    simp only [ParseYungChing.Link, hq]
  · intro lib handle element e hq hg
    simp only [ParseYungChing.Link, hq, hg]
  · intro item element req e hq ht
    simp only [ParseYungChing.Address, hq, ht]
  · intro item req e hq
    simp only [ParseYungChing.Address, hq]
  · intro lib price item link err hl
    simp only [ParseYungChing.FetchItem, hl]
    exact ⟨_, rfl⟩
  · intro lib price item link p err hl hp
    simp only [ParseYungChing.FetchItem, hl, hp]
    exact ⟨_, rfl⟩
  · intro lib price item link p res err hl hp ha
    refine ⟨res, ?_⟩
    unfold ParseYungChing.FetchItem
    simp only [hl, hp]
    rw [ha]
  · intro lib price item link p res e hl hp ha hd
    rw [FetchItem_at_detail yc lib price item link p res hl hp ha, hd]
  · intro lib price item detailElement link p res e hl hp ha hd hall
    rw [FetchItem_at_detail yc lib price item link p res hl hp ha, hd]
    dsimp only
    rw [hall]

theorem collaborator_errors_passed_witness :
    (NewParseYungChing "台北市").SetTotalRow () (failingFetch "timeout") 0
      = (.ret (some (.external "timeout")), NewParseYungChing "台北市", 1) :=
  (@collaborator_errors_passed Unit Nat String (NewParseYungChing "台北市")).1
    () (failingFetch "timeout") 0 1 "timeout" rfl rfl

/-! ## Properties: request URL and crawl loop -/

theorem iterate_UpdateCurrentPage (k : Nat) (yc : ParseYungChing)
    (hlo : -int64Bound ≤ yc.CurrentPage) (hhi : yc.CurrentPage + k < int64Bound) :
    ParseYungChing.UpdateCurrentPage^[k] yc = { yc with CurrentPage := yc.CurrentPage + k } := by
  induction k generalizing yc with
  | zero => simp
  | succ k ih =>
    have hstep : wrap64 (yc.CurrentPage + 1) = yc.CurrentPage + 1 :=
      wrap64_of_isInt64 ⟨by omega, by push_cast at hhi; omega⟩
    rw [Function.iterate_succ_apply, ih]
    · simp only [ParseYungChing.UpdateCurrentPage, hstep]
      congr 1
      push_cast
      ring
    · simp only [ParseYungChing.UpdateCurrentPage, hstep]
      omega
    · simp only [ParseYungChing.UpdateCurrentPage, hstep]
      push_cast at hhi
      omega

/-- C18: `URL` is the literal template filled with the city, verbatim, and the
decimal numerals of `MinPrice`, `MaxPrice` and `CurrentPage`, and it leaves the
state as it was.  A parser fresh for city `c` gives
`https://buy.yungching.com.tw/region/c-_c/500-3000_price/_rm/?pg=1`; after `k`
calls of `UpdateCurrentPage` (short of the 64-bit limit) only `CurrentPage` has
changed, to `k + 1`, and the URL ends in `?pg=` followed by `k + 1`. -/
theorem URL_format {κ σ ε : Type} (yc : ParseYungChing) (w : σ) :
    yc.URL = "https://buy.yungching.com.tw/region/" ++ yc.City ++ "-_c/"
        ++ toString yc.MinPrice ++ "-" ++ toString yc.MaxPrice ++ "_price/_rm/?pg="
        ++ toString yc.CurrentPage
      ∧ (Op.URL : Op κ σ ε).exec yc w = (yc, w)
      ∧ (∀ c : String, (NewParseYungChing c).URL
          = "https://buy.yungching.com.tw/region/" ++ c ++ "-_c/500-3000_price/_rm/?pg=1")
      ∧ ∀ (c : String) (k : Nat), (k : Int) + 1 < int64Bound →
          ParseYungChing.UpdateCurrentPage^[k] (NewParseYungChing c)
            = { NewParseYungChing c with CurrentPage := (k : Int) + 1 }
          ∧ (ParseYungChing.UpdateCurrentPage^[k] (NewParseYungChing c)).URL
            = "https://buy.yungching.com.tw/region/" ++ c ++ "-_c/500-3000_price/_rm/?pg="
                ++ toString ((k : Int) + 1) := by
  have h500 : toString (500 : Int) = "500" := by decide
  have h3000 : toString (3000 : Int) = "3000" := by decide
  have h1 : toString (1 : Int) = "1" := by decide
  have hmid : ∀ c : String, "https://buy.yungching.com.tw/region/" ++ c ++ "-_c/" ++ "500"
      ++ "-" ++ "3000" ++ "_price/_rm/?pg="
        = "https://buy.yungching.com.tw/region/" ++ c ++ "-_c/500-3000_price/_rm/?pg=" := by
    intro c
    simp only [String.append_assoc]
    rfl
  refine ⟨rfl, rfl, ?_, ?_⟩
  · intro c
    show "https://buy.yungching.com.tw/region/" ++ c ++ "-_c/" ++ toString (500 : Int)
        ++ "-" ++ toString (3000 : Int) ++ "_price/_rm/?pg=" ++ toString (1 : Int) = _
    rw [h500, h3000, h1, hmid c]
    simp only [String.append_assoc]
    rfl
  · intro c k hk
    have hit := iterate_UpdateCurrentPage k (NewParseYungChing c)
      (by show -int64Bound ≤ (1 : Int); unfold int64Bound; omega)
      (by show (1 : Int) + k < int64Bound; omega)
    have hcp : (NewParseYungChing c).CurrentPage + (k : Int) = (k : Int) + 1 := by
      show (1 : Int) + k = k + 1
      ring
    rw [hcp] at hit
    refine ⟨hit, ?_⟩
    rw [hit]
    show "https://buy.yungching.com.tw/region/" ++ c ++ "-_c/" ++ toString (500 : Int)
        ++ "-" ++ toString (3000 : Int) ++ "_price/_rm/?pg=" ++ toString ((k : Int) + 1) = _
    rw [h500, h3000, hmid c]

theorem URL_format_witness :
    (ParseYungChing.UpdateCurrentPage^[2] (NewParseYungChing "台北市")).URL
      = "https://buy.yungching.com.tw/region/台北市-_c/500-3000_price/_rm/?pg=3" :=
  ((@URL_format Unit Unit Unit (NewParseYungChing "台北市") ()).2.2.2 "台北市" 2
    (by decide)).2.trans (by decide)

theorem crawlLoop_unknown (fuel : Nat) (yc : ParseYungChing) (h : yc.TotalPage = 0) :
    crawlLoop fuel yc = none := by
  induction fuel generalizing yc with
  | zero => rfl
  | succ fuel ih =>
    have hn : yc.HasNext = true := by simp [ParseYungChing.HasNext, h]
    have hnext : crawlLoop fuel yc.UpdateCurrentPage = none := ih yc.UpdateCurrentPage h
    simp [crawlLoop, hn, hnext]

theorem crawlLoop_known (fuel : Nat) (yc : ParseYungChing) (hT : yc.TotalPage ≠ 0)
    (hle : yc.CurrentPage ≤ yc.TotalPage) (hhi : yc.TotalPage < int64Bound)
    (hlo : -int64Bound ≤ yc.CurrentPage) :
    (∀ final n, crawlLoop fuel yc = some (final, n) →
        (n : Int) = yc.TotalPage - yc.CurrentPage
        ∧ final = ParseYungChing.UpdateCurrentPage^[n] yc)
      ∧ ((yc.TotalPage - yc.CurrentPage).toNat < fuel → (crawlLoop fuel yc).isSome = true) := by
  induction fuel generalizing yc with
  | zero =>
    refine ⟨fun final n h => ?_, fun h => absurd h (Nat.not_lt_zero _)⟩
    simp [crawlLoop] at h
  | succ fuel ih =>
    by_cases hlt : yc.CurrentPage < yc.TotalPage
    · have hn : yc.HasNext = true := by simp [ParseYungChing.HasNext, hT, hlt]
      have hstep : wrap64 (yc.CurrentPage + 1) = yc.CurrentPage + 1 :=
        wrap64_of_isInt64 ⟨by omega, by omega⟩
      have hcp : yc.UpdateCurrentPage.CurrentPage = yc.CurrentPage + 1 := by
        simp only [ParseYungChing.UpdateCurrentPage, hstep]
      have htp : yc.UpdateCurrentPage.TotalPage = yc.TotalPage := rfl
      obtain ⟨ih1, ih2⟩ := ih yc.UpdateCurrentPage (by rw [htp]; exact hT)
        (by rw [htp, hcp]; omega) (by rw [htp]; exact hhi) (by rw [hcp]; omega)
      constructor
      · intro final n h
        simp only [crawlLoop, hn, if_true] at h
        cases hrec : crawlLoop fuel yc.UpdateCurrentPage with
        | none => rw [hrec] at h; cases h
        | some r =>
          obtain ⟨final2, n2⟩ := r
          rw [hrec] at h
          simp only [Option.some.injEq, Prod.mk.injEq] at h
          obtain ⟨hf, hnn⟩ := h
          obtain ⟨e1, e2⟩ := ih1 final2 n2 hrec
          rw [htp, hcp] at e1
          refine ⟨by rw [← hnn]; push_cast; omega, ?_⟩
          rw [← hnn, ← hf, Function.iterate_succ_apply]
          exact e2
      · intro hfuel
        have hfuel2 : (yc.UpdateCurrentPage.TotalPage - yc.UpdateCurrentPage.CurrentPage).toNat
            < fuel := by
          rw [htp, hcp]
          omega
        have hsome := ih2 hfuel2
        simp only [crawlLoop, hn, if_true]
        cases hrec : crawlLoop fuel yc.UpdateCurrentPage with
        | none => rw [hrec] at hsome; cases hsome
        | some r => rfl
    · have heq : yc.CurrentPage = yc.TotalPage := by omega
      have hn : yc.HasNext = false := by simp [ParseYungChing.HasNext, hT, heq]
      constructor
      · intro final n h
        simp only [crawlLoop, hn] at h
        simp only [Bool.false_eq_true, if_false, Option.some.injEq, Prod.mk.injEq] at h
        obtain ⟨hf, hnn⟩ := h
        refine ⟨by rw [← hnn, heq]; simp, ?_⟩
        rw [← hnn, ← hf]
        rfl
      · intro _
        simp [crawlLoop, hn]

/-- C19: on a fresh parser on which `SetTotalRow` has succeeded with a row
count `rows ≥ 0`, the crawl loop `while HasNext do UpdateCurrentPage` terminates
if and only if `rows ≥ 1`.  When it terminates it has made exactly
`TotalPage - 1` advances, it ends with `CurrentPage = TotalPage`, and at no
point of the run was `CurrentPage` above `TotalPage`. -/
theorem crawlLoop_terminates_iff {κ σ ε : Type} (city : String) (ctx : κ)
    (f : κ → String → σ → Except ε Int × σ) (w w1 : σ) (rows : Int) (yc : ParseYungChing)
    (hf : f ctx (NewParseYungChing city).Selectors.Total.Build w = (.ok rows, w1))
    (hyc : yc = ((NewParseYungChing city).SetTotalRow ctx f w).2.1)
    (h0 : 0 ≤ rows) (hr : rows < int64Bound) :
    (NewParseYungChing city).SetTotalRow ctx f w = (.ret none, yc, w1)
      ∧ ((∃ fuel, (crawlLoop fuel yc).isSome = true) ↔ 1 ≤ rows)
      ∧ ∀ fuel final n, crawlLoop fuel yc = some (final, n) →
          (n : Int) = yc.TotalPage - 1
          ∧ final = ParseYungChing.UpdateCurrentPage^[n] yc
          ∧ final.CurrentPage = yc.TotalPage
          ∧ final.HasNext = false
          ∧ ∀ i, i ≤ n →
              (ParseYungChing.UpdateCurrentPage^[i] yc).CurrentPage ≤ yc.TotalPage := by
  have hset : (NewParseYungChing city).SetTotalRow ctx f w =
      (.ret none, { NewParseYungChing city with
                      TotalPage := ParseYungChing.pageCount rows 30 }, w1) :=
    SetTotalRow_fresh (NewParseYungChing city) ctx f w w1 rows rfl
      (by show (30 : Int) ≠ 0; decide) hf
  rw [hset] at hyc
  have hTP : yc.TotalPage = ParseYungChing.pageCount rows 30 := by rw [hyc]
  have hCP : yc.CurrentPage = 1 := by rw [hyc]; rfl
  have hcount := pageCount_eq h0 hr (by decide : (0 : Int) < 30)
  obtain ⟨hq0, hqle, hqlt⟩ := ediv_facts h0 (by decide : (0 : Int) < 30)
  have hTle : yc.TotalPage ≤ rows := by
    rw [hTP, hcount]
    split_ifs with hm
    · have := hqlt hm
      omega
    · omega
  refine ⟨by rw [hset, hyc], ?_, ?_⟩
  · constructor
    · rintro ⟨fuel, hsome⟩
      by_contra hlt
      have hrows : rows = 0 := by omega
      have hz : yc.TotalPage = 0 := by
        rw [hTP, hrows]
        decide
      rw [crawlLoop_unknown fuel yc hz] at hsome
      cases hsome
    · intro h1
      have hpos := pageCount_pos h1 hr (by decide : (0 : Int) < 30)
      rw [← hTP] at hpos
      exact ⟨(yc.TotalPage - yc.CurrentPage).toNat + 1,
        (crawlLoop_known _ yc (by omega) (by omega) (by omega)
          (by rw [hCP]; unfold int64Bound; omega)).2 (Nat.lt_succ_self _)⟩
  · intro fuel final n hrun
    have hT : yc.TotalPage ≠ 0 := by
      intro hz
      rw [crawlLoop_unknown fuel yc hz] at hrun
      cases hrun
    have hrows : 1 ≤ rows := by
      by_contra hlt
      have hrows0 : rows = 0 := by omega
      apply hT
      rw [hTP, hrows0]
      decide
    have hpos := pageCount_pos hrows hr (by decide : (0 : Int) < 30)
    rw [← hTP] at hpos
    have hlo : -int64Bound ≤ yc.CurrentPage := by rw [hCP]; unfold int64Bound; omega
    obtain ⟨hn, hfinal⟩ :=
      (crawlLoop_known fuel yc hT (by omega) (by omega) hlo).1 final n hrun
    rw [hCP] at hn
    have hiter : ∀ i, i ≤ n → ParseYungChing.UpdateCurrentPage^[i] yc
        = { yc with CurrentPage := yc.CurrentPage + i } := fun i hi =>
      iterate_UpdateCurrentPage i yc hlo (by rw [hCP]; omega)
    have hfc : final.CurrentPage = yc.TotalPage := by
      rw [hfinal, hiter n le_rfl]
      show yc.CurrentPage + (n : Int) = yc.TotalPage
      omega
    have hft : final.TotalPage = yc.TotalPage := by
      rw [hfinal, hiter n le_rfl]
    refine ⟨hn, hfinal, hfc, ?_, ?_⟩
    · simp [ParseYungChing.HasNext, hft, hfc, hT]
    · intro i hi
      rw [hiter i hi]
      show yc.CurrentPage + (i : Int) ≤ yc.TotalPage
      omega

theorem crawlLoop_terminates_iff_witness :
    crawlLoop 10 (((NewParseYungChing "台北市").SetTotalRow () (countingFetch 91) 0).2.1)
      = some ({ NewParseYungChing "台北市" with CurrentPage := 4, TotalPage := 4 }, 3)
    ∧ ((∃ fuel, (crawlLoop fuel
          (((NewParseYungChing "台北市").SetTotalRow () (countingFetch 91) 0).2.1)).isSome = true)
        ↔ (1 : Int) ≤ 91) :=
  ⟨by decide,
    (crawlLoop_terminates_iff "台北市" () (countingFetch 91) 0 1 91
      (((NewParseYungChing "台北市").SetTotalRow () (countingFetch 91) 0).2.1)
      rfl rfl (by decide) (by decide)).2.1⟩

/-! ## Properties: link resolution -/

theorem path_byte_facts :
    ∀ n, n < 128 →
      (n ∈ [33, 36, 38, 39, 40, 41, 42, 43, 44, 59, 61, 58, 64, 91, 93, 37]
        ∨ url.shouldEscape n .encodePath = false) →
      32 ≤ n ∧ n ≠ 127 ∧ n ≠ 35 ∧ n ≠ 63 := by
  decide

theorem validEncoded_rune (s : List Char) (h : url.validEncoded .encodePath s = true)
    (c : Char) (hc : c ∈ s) :
    32 ≤ c.toNat ∧ c.toNat ≠ 127 ∧ c.toNat ≠ 35 ∧ c.toNat ≠ 63 := by
  unfold url.validEncoded at h
  rw [List.all_eq_true] at h
  have hcv := h c hc
  simp only [Bool.or_eq_true, decide_eq_true_eq, Bool.and_eq_true, Bool.not_eq_true'] at hcv
  rcases hcv with hl | ⟨hlt, hne⟩
  · have hlt : c.toNat < 128 := by
      simp only [List.mem_cons, List.mem_singleton, List.not_mem_nil, or_false] at hl
      omega
    exact path_byte_facts c.toNat hlt (Or.inl hl)
  · exact path_byte_facts c.toNat hlt (Or.inr hne)

theorem validEncoded_not_mem (s : List Char) (h : url.validEncoded .encodePath s = true) :
    '#' ∉ s ∧ '?' ∉ s ∧ url.stringContainsCTLByte s = false := by
  refine ⟨fun hm => ?_, fun hm => ?_, ?_⟩
  · exact (validEncoded_rune s h _ hm).2.2.1 rfl
  · exact (validEncoded_rune s h _ hm).2.2.2 rfl
  · unfold url.stringContainsCTLByte
    rw [List.any_eq_false]
    intro c hc
    have := validEncoded_rune s h c hc
    simp only [Bool.or_eq_true, decide_eq_true_eq, beq_iff_eq, not_or]
    omega

theorem cut_not_mem (sep : Char) (s : List Char) (h : sep ∉ s) : url.cut sep s = (s, []) := by
  induction s with
  | nil => rfl
  | cons c s ih =>
    have hc : c ≠ sep := fun heq => h (heq ▸ List.mem_cons_self _ _)
    have ih2 := ih (fun hmem => h (List.mem_cons_of_mem _ hmem))
    simp [url.cut, hc, ih2]

theorem foldl_resolveStep_plain (elems : List (List Char)) (dst : List Char)
    (h1 : ['.'] ∉ elems) (h2 : ['.', '.'] ∉ elems) :
    elems.foldl url.resolveStep (dst, false)
      = (dst ++ (elems.map (fun seg => '/' :: seg)).flatten, false) := by
  induction elems generalizing dst with
  | nil => simp
  | cons e elems ih =>
    have he1 : e ≠ ['.'] := fun heq => h1 (heq ▸ List.mem_cons_self _ _)
    have he2 : e ≠ ['.', '.'] := fun heq => h2 (heq ▸ List.mem_cons_self _ _)
    rw [List.foldl_cons]
    have hstep : url.resolveStep (dst, false) e = (dst ++ ['/'] ++ e, false) := by
      simp [url.resolveStep, he1, he2]
    rw [hstep, ih _ (fun hm => h1 (List.mem_cons_of_mem _ hm))
      (fun hm => h2 (List.mem_cons_of_mem _ hm))]
    simp

theorem resolvePath_no_dots (href : List Char) (hhead : href.head? = some '/')
    (hd1 : ['.'] ∉ splitRunes '/' href) (hd2 : ['.', '.'] ∉ splitRunes '/' href) :
    url.resolvePath [] href = href := by
  obtain ⟨first, rest, hsp, hs⟩ := splitRunes_join '/' href
  cases href with
  | nil => cases hhead
  | cons c s =>
    have hc : c = '/' := by simpa using hhead
    subst hc
    have hfirst : first = [] := by
      simp only [splitRunes, if_true] at hsp
      exact ((List.cons.inj hsp).1).symm
    subst hfirst
    have hr1 : ['.'] ∉ rest := fun hm => hd1 (hsp ▸ List.mem_cons_of_mem _ hm)
    have hr2 : ['.', '.'] ∉ rest := fun hm => hd2 (hsp ▸ List.mem_cons_of_mem _ hm)
    have hfold : (splitRunes '/' ('/' :: s)).foldl url.resolveStep ([], true)
        = ('/' :: s, false) := by
      rw [hsp, List.foldl_cons]
      have h0 : url.resolveStep ([], true) [] = ([], false) := by decide
      rw [h0, foldl_resolveStep_plain rest [] hr1 hr2]
      simp only [List.nil_append] at hs ⊢
      rw [← hs]
    have hlast : ¬ ((splitRunes '/' ('/' :: s)).getLast? = some ['.']
        ∨ (splitRunes '/' ('/' :: s)).getLast? = some ['.', '.']) := by
      rintro (hl | hl)
      · exact hd1 (List.mem_of_getLast?_eq_some hl)
      · exact hd2 (List.mem_of_getLast?_eq_some hl)
    simp only [url.resolvePath, ne_eq, not_true_eq_false, if_false]
    rw [hfold]
    simp [hlast]

theorem unescape_slash (s : List Char) (path : url.Bytes)
    (h : url.unescape .encodePath ('/' :: s) = .ok path) : ∃ t, path = 47 :: t := by
  unfold url.unescape at h
  split at h
  · rename_i heq
    cases heq
  · rename_i heq
    exact absurd (List.cons.inj heq).1 (by decide)
  · rename_i heq
    obtain ⟨h1, h2⟩ := List.cons.inj heq
    subst h1 h2
    rw [if_neg (by decide), if_neg (by simp)] at h
    cases hu : url.unescape .encodePath s with
    | error e => rw [hu] at h; cases h
    | ok t =>
      rw [hu] at h
      simp only [Except.ok.injEq] at h
      refine ⟨t, ?_⟩
      rw [← h]
      rfl

/-- The `URL` that `setPath` makes of the raw path `p` with decoded bytes `path`. -/
theorem EscapedPath_of_raw (u : url.URL) (p : List Char) (path : url.Bytes)
    (hhead : p.head? = some '/') (hv : url.validEncoded .encodePath p = true)
    (hu : url.unescape .encodePath p = .ok path) (hpath : u.Path = path)
    (hraw : u.RawPath = if p = url.escape .encodePath path then [] else p) :
    u.EscapedPath = p := by
  have hne : p ≠ [] := by
    intro he
    rw [he] at hhead
    cases hhead
  unfold url.URL.EscapedPath
  by_cases hcanon : p = url.escape .encodePath path
  · rw [if_pos hcanon] at hraw
    have hstar : path ≠ [42] := by
      intro hs
      rw [hs] at hcanon
      rw [hcanon] at hhead
      revert hhead
      decide
    simp [hraw, hpath, hstar, url.unescape, ← hcanon]
  · rw [if_neg hcanon] at hraw
    simp [hraw, hpath, hu, hv, hne]

theorem Parse_absolute_path (href : List Char) (path : url.Bytes)
    (h : isAbsolutePathHref href) (hu : url.unescape .encodePath href = .ok path) :
    url.Parse href = .ok { url.URL.zero with
      Path := path
      RawPath := if href = url.escape .encodePath path then [] else href } := by
  obtain ⟨hhead, hsecond, hv, -, -, -⟩ := h
  obtain ⟨hhash, hquery, hctl⟩ := validEncoded_not_mem href hv
  cases href with
  | nil => cases hhead
  | cons c s =>
    have hc : c = '/' := by simpa using hhead
    subst hc
    have hscheme : url.getScheme ('/' :: s) = .ok ([], '/' :: s) := by
      simp only [url.getScheme, url.getSchemeFrom]
      rw [if_neg (by decide), if_neg (by decide), if_neg (by decide)]
    have hforce : ¬ (('/' :: s).getLast? = some '?' ∧ ('/' :: s).count '?' = 1) := by
      rintro ⟨hl, -⟩
      exact hquery (List.mem_of_getLast?_eq_some hl)
    have hp1 : stringsHasPrefix ('/' :: s) ['/'] = true := by
      cases s <;> simp [stringsHasPrefix]
    have hp2 : stringsHasPrefix ('/' :: s) ['/', '/'] = false := by
      cases s with
      | nil => rfl
      | cons d s =>
        have hd : d ≠ '/' := by simpa using hsecond
        cases s <;> simp [stringsHasPrefix, hd]
    have hstar : ('/' :: s) ≠ ['*'] := by
      intro heq
      have := (List.cons.inj heq).1
      revert this
      decide
    have hparse : url.parse ('/' :: s)
        = .ok { url.URL.zero with
            Path := path
            RawPath := if ('/' :: s) = url.escape .encodePath path then [] else '/' :: s } := by
      unfold url.parse
      rw [if_neg (by simp [hctl]), if_neg hstar, hscheme]
      simp only [hforce, if_false, cut_not_mem '?' _ hquery, List.map_nil, hp1, hp2,
        Bool.not_true, Bool.false_eq_true, false_and, ne_eq, not_true_eq_false, and_false,
        url.URL.setPath, hu]
      rfl
    unfold url.Parse
    rw [cut_not_mem '#' _ hhash, hparse]
    simp

theorem resolve_absolute_path (href : List Char) (path : url.Bytes)
    (h : isAbsolutePathHref href) (hu : url.unescape .encodePath href = .ok path) :
    url.URL.String
        (url.URL.ResolveReference
          { url.URL.zero with
              Scheme := "https".data, Host := url.bytesOf "buy.yungching.com.tw".data }
          { url.URL.zero with
              Path := path
              RawPath := if href = url.escape .encodePath path then [] else href })
      = siteOrigin.data ++ href := by
  obtain ⟨hhead, hsecond, hv, -, hd1, hd2⟩ := h
  have hne : href ≠ [] := by
    intro he
    rw [he] at hhead
    cases hhead
  have hbytes : path ≠ [] := by
    cases href with
    | nil => exact absurd rfl hne
    | cons c s =>
      have hc : c = '/' := by simpa using hhead
      subst hc
      obtain ⟨t, ht⟩ := unescape_slash s path hu
      rw [ht]
      simp
  have hesc : ({ url.URL.zero with
      Path := path
      RawPath := if href = url.escape .encodePath path then [] else href } : url.URL).EscapedPath
        = href := EscapedPath_of_raw _ href path hhead hv hu rfl rfl
  have hbase : ({ url.URL.zero with
      Scheme := "https".data, Host := url.bytesOf "buy.yungching.com.tw".data }
        : url.URL).EscapedPath = [] := by decide
  have hres : url.URL.ResolveReference
      { url.URL.zero with
          Scheme := "https".data, Host := url.bytesOf "buy.yungching.com.tw".data }
      { url.URL.zero with
          Path := path
          RawPath := if href = url.escape .encodePath path then [] else href }
      = { url.URL.zero with
            Scheme := "https".data, Host := url.bytesOf "buy.yungching.com.tw".data,
            Path := path,
            RawPath := if href = url.escape .encodePath path then [] else href } := by
    unfold url.URL.ResolveReference
    rw [hbase, hesc, resolvePath_no_dots href hhead hd1 hd2]
    simp [url.URL.zero, url.URL.setPath, hu, hbytes]
  have hesc2 : ({ url.URL.zero with
      Scheme := "https".data, Host := url.bytesOf "buy.yungching.com.tw".data,
      Path := path,
      RawPath := if href = url.escape .encodePath path then [] else href }
        : url.URL).EscapedPath = href := EscapedPath_of_raw _ href path hhead hv hu rfl rfl
  have hhost : url.escape .encodeHost (url.bytesOf "buy.yungching.com.tw".data)
      = "buy.yungching.com.tw".data := by decide
  have hhostne : url.bytesOf "buy.yungching.com.tw".data ≠ [] := by decide
  rw [hres]
  unfold url.URL.String
  rw [hesc2]
  simp [url.URL.zero, hhost, hhostne, hbytes, hne, hhead, siteOrigin]

theorem Link_of_href {ε : Type} (yc : ParseYungChing) (lib : NetURL ε)
    (handle element : ElementHandle ε) (href : String)
    (hq : handle.QuerySelector yc.Selectors.Link.Build = .ok (some element))
    (hg : element.GetAttribute "href" = .ok href) :
    yc.Link lib handle =
      if stringsHasPrefix href.data "https".data then ("", some (.errorsNew ""))
      else
        match lib.Parse href with
        | .error err => ("", some (.external err))
        | .ok path =>
          match lib.Parse "https://buy.yungching.com.tw" with
          | .error err => ("", some (.external err))
          | .ok host => (lib.URLString (lib.ResolveReference host path), none) := by
  simp only [ParseYungChing.Link, hq, hg]

/-- C11, as stated, fails in both directions: the hrefs
"http://other.example/x" and "ftp://other.example/x" carry a scheme, yet `Link`
returns them as the URL without error; and the href "https/x" carries no
scheme, yet `Link` rejects it. -/
theorem Link_scheme_check_is_https_text :
    (url.getScheme "http://other.example/x".data).toOption.map Prod.fst = some "http".data
    ∧ (NewParseYungChing "台北市").Link (goURL id)
        (anchorItem (NewParseYungChing "台北市") "http://other.example/x")
      = ("http://other.example/x", none)
    ∧ (url.getScheme "ftp://other.example/x".data).toOption.map Prod.fst = some "ftp".data
    ∧ (NewParseYungChing "台北市").Link (goURL id)
        (anchorItem (NewParseYungChing "台北市") "ftp://other.example/x")
      = ("ftp://other.example/x", none)
    ∧ (url.getScheme "https/x".data).toOption.map Prod.fst = some []
    ∧ (NewParseYungChing "台北市").Link (goURL id)
        (anchorItem (NewParseYungChing "台北市") "https/x")
      = ("", some (.errorsNew "")) := by
  decide

/-- C11, amended: for an item whose link anchor exists, `Link` returns an error
and no URL whenever the href begins with the text `https`; an href that does
not begin with `https` is not rejected for its scheme: `Link` fails on it
exactly when `url.Parse` fails (on the href or on the origin) and passes that
error on, and otherwise returns the resolved URL without error. -/
theorem Link_rejects_https_text {ε : Type} (yc : ParseYungChing) (lib : NetURL ε)
    (handle element : ElementHandle ε) (href : String)
    (hq : handle.QuerySelector yc.Selectors.Link.Build = .ok (some element))
    (hg : element.GetAttribute "href" = .ok href) :
    (stringsHasPrefix href.data "https".data = true →
        yc.Link lib handle = ("", some (.errorsNew "")))
      ∧ (stringsHasPrefix href.data "https".data = false →
          (∀ e, lib.Parse href = .error e → yc.Link lib handle = ("", some (.external e)))
          ∧ (∀ path e, lib.Parse href = .ok path →
              lib.Parse "https://buy.yungching.com.tw" = .error e →
              yc.Link lib handle = ("", some (.external e)))
          ∧ (∀ path host, lib.Parse href = .ok path →
              lib.Parse "https://buy.yungching.com.tw" = .ok host →
              yc.Link lib handle = (lib.URLString (lib.ResolveReference host path), none))) := by
  have hlink := Link_of_href yc lib handle element href hq hg
  refine ⟨fun hp => ?_, fun hp => ⟨fun e he => ?_, fun path e hpath he => ?_,
    fun path host hpath hhost => ?_⟩⟩
  · rw [hlink, if_pos hp]
  · rw [hlink, if_neg (by simp [hp]), he]
  · rw [hlink, if_neg (by simp [hp]), hpath]
    dsimp only
    rw [he]
  · rw [hlink, if_neg (by simp [hp]), hpath]
    dsimp only
    rw [hhost]

theorem Link_rejects_https_text_witness :
    stringsHasPrefix "https://other.example/x".data "https".data = true
    ∧ (NewParseYungChing "台北市").Link (goURL id)
        (anchorItem (NewParseYungChing "台北市") "https://other.example/x")
      = ("", some (.errorsNew "")) :=
  ⟨by decide,
    (Link_rejects_https_text (NewParseYungChing "台北市") (goURL id)
      (anchorItem (NewParseYungChing "台北市") "https://other.example/x")
      (leafElement "" "https://other.example/x") "https://other.example/x" rfl rfl).1
      (by decide)⟩

/-- C12, as stated, fails: the href "/a b" begins with `/` and has no scheme,
query or dot segment, yet `Link` returns the origin followed by "/a%20b"; and
the href "//other.example/x", which also begins with `/`, is resolved to
another host. -/
theorem Link_absolute_path_rewritten :
    (url.getScheme "/a b".data).toOption.map Prod.fst = some []
    ∧ '?' ∉ "/a b".data ∧ ['.'] ∉ splitRunes '/' "/a b".data
    ∧ ['.', '.'] ∉ splitRunes '/' "/a b".data
    ∧ (NewParseYungChing "台北市").Link (goURL id)
        (anchorItem (NewParseYungChing "台北市") "/a b")
      = ("https://buy.yungching.com.tw/a%20b", none)
    ∧ "https://buy.yungching.com.tw/a%20b" ≠ siteOrigin ++ "/a b"
    ∧ (url.getScheme "//other.example/x".data).toOption.map Prod.fst = some []
    ∧ (NewParseYungChing "台北市").Link (goURL id)
        (anchorItem (NewParseYungChing "台北市") "//other.example/x")
      = ("https://other.example/x", none)
    ∧ "https://other.example/x" ≠ siteOrigin ++ "//other.example/x" := by
  decide

/-- C12, amended: for an item whose link anchor has an href that is an
absolute path in the strict sense (it begins with a single `/`; it is made of
runes a URL path may hold, that is ASCII letters and digits, the marks
`- _ . ~ ! $ & ( ) * + , ; = : @ / [ ]`, the apostrophe, and well-formed `%XX`
escapes; it has no `.` or `..` segment), `Link` returns without error the
origin `https://buy.yungching.com.tw` followed by that href; the href
"/case/123" gives "https://buy.yungching.com.tw/case/123". -/
theorem Link_absolute_path {ε : Type} (yc : ParseYungChing) (mkErr : String → ε)
    (handle element : ElementHandle ε) (href : String)
    (hq : handle.QuerySelector yc.Selectors.Link.Build = .ok (some element))
    (hg : element.GetAttribute "href" = .ok href)
    (habs : isAbsolutePathHref href.data) :
    yc.Link (goURL mkErr) handle = (siteOrigin ++ href, none)
      ∧ (href = "/case/123" →
          yc.Link (goURL mkErr) handle = ("https://buy.yungching.com.tw/case/123", none)) := by
  have hlink := Link_of_href yc (goURL mkErr) handle element href hq hg
  have hstart : stringsHasPrefix href.data "https".data = false := by
    have hhead := habs.1
    cases hd : href.data with
    | nil => rw [hd] at hhead; cases hhead
    | cons c s =>
      rw [hd] at hhead
      have hc : c = '/' := by simpa using hhead
      rw [hc]
      rfl
  cases hu : url.unescape .encodePath href.data with
  | error e =>
    have hsome := habs.2.2.2.1
    rw [hu] at hsome
    cases hsome
  | ok path =>
    have hparse : (goURL mkErr).Parse href
        = .ok { url.URL.zero with
                  Path := path
                  RawPath := if href.data = url.escape .encodePath path then [] else href.data } := by
      show (match url.Parse href.data with
        | .ok u => Except.ok u
        | .error e => Except.error (mkErr e)) = _
      rw [Parse_absolute_path href.data path habs hu]
    have hbase : (goURL mkErr).Parse "https://buy.yungching.com.tw"
        = .ok { url.URL.zero with
                  Scheme := "https".data, Host := url.bytesOf "buy.yungching.com.tw".data } := by
      rfl
    have hmain : yc.Link (goURL mkErr) handle = (siteOrigin ++ href, none) := by
      rw [hlink, if_neg (by simp [hstart]), hparse]
      dsimp only
      rw [hbase]
      dsimp only
      show ((⟨url.URL.String (url.URL.ResolveReference _ _)⟩ : String), _) = _
      rw [resolve_absolute_path href.data path habs hu]
      rfl
    refine ⟨hmain, fun he => ?_⟩
    rw [hmain, he]
    rfl

theorem Link_absolute_path_witness :
    isAbsolutePathHref "/case/123".data
    ∧ (NewParseYungChing "台北市").Link (goURL id)
        (anchorItem (NewParseYungChing "台北市") "/case/123")
      = ("https://buy.yungching.com.tw/case/123", none) :=
  ⟨by decide,
    (Link_absolute_path (NewParseYungChing "台北市") id
      (anchorItem (NewParseYungChing "台北市") "/case/123")
      (leafElement "" "/case/123") "/case/123" rfl rfl (by decide)).2 rfl⟩

end SeekHourse
